import Mathlib

/-!
Verification of the aitop session-reconciliation core.

The definitions below are a shallow embedding of the TypeScript sources:
`SessionStore` (src/unnamed/part_003), `Coordinator` and `ProcessScanner`
(src/src/services/Coordinator.ts), `LogWatcher` and the command/path security
utilities (src/unnamed/part_002), and `WorkingDirResolver`
(src/src/services/WorkingDirResolver.ts).

Timestamps (`Date.now()` / `new Date()`) are modelled as `Nat` parameters
passed in by the caller; the JavaScript `Map` is modelled as an association
list that preserves insertion order (as `Map` iteration does), where `set` on
an existing key updates the entry in place and `set` on a fresh key appends.
Event emission is modelled by returning the list of emitted events alongside
the new state.
-/

namespace Aitop

/-- JavaScript `s.substring(0, n)`:  the first `n` characters of `s`. -/
def jsTake (s : String) (n : Nat) : String :=
  String.mk (s.data.take n)

/-- JavaScript `s.startsWith(prefix)`. -/
def jsStartsWith (s pre : String) : Bool :=
  pre.data.isPrefixOf s.data

/-- `SessionStatus` / `ProcessStatus` from src/src/types/shared.ts. -/
inductive ProcessStatus where
  | idle
  | running
deriving DecidableEq, Repr

/-- `ClaudeProcess` from src/src/types/shared.ts (plus the `transcriptPath`
field that `associateSession` stows on the object).  `sessionId` is always a
string at runtime because `upsertProcess` always fills it. -/
structure ClaudeProcess where
  pid : Nat
  sessionId : String
  displayName : Option String
  status : ProcessStatus
  cpuUsage : Int
  memoryUsage : Int
  startTime : Nat
  lastActiveTime : Nat
  runningTime : String
  firstSeenAt : Nat
  workingDir : Option String
  transcriptPath : Option String
deriving DecidableEq, Repr

/-- `Partial<ClaudeProcess>`: a field is `some v` exactly when the key is
present in the partial object. -/
structure PartialProcess where
  pid : Option Nat := none
  sessionId : Option String := none
  displayName : Option String := none
  status : Option ProcessStatus := none
  cpuUsage : Option Int := none
  memoryUsage : Option Int := none
  startTime : Option Nat := none
  lastActiveTime : Option Nat := none
  runningTime : Option String := none
  firstSeenAt : Option Nat := none
  workingDir : Option String := none
  transcriptPath : Option String := none
deriving DecidableEq, Repr

/-- The `processes : Map<number, ClaudeProcess>` of `SessionStore`, as an
insertion-ordered association list. -/
abbrev Store := List (Nat × ClaudeProcess)

/-- `Map.get`. -/
def mapGet (s : Store) (pid : Nat) : Option ClaudeProcess :=
  (s.find? (fun e => e.1 = pid)).map Prod.snd

/-- `Map.set`: updating an existing key keeps its position, a fresh key is
appended at the end (JavaScript `Map` insertion-order semantics). -/
def mapSet (s : Store) (pid : Nat) (p : ClaudeProcess) : Store :=
  if s.any (fun e => e.1 = pid) then
    s.map (fun e => if e.1 = pid then (pid, p) else e)
  else
    s ++ [(pid, p)]

/-- `Map.delete`. -/
def mapDelete (s : Store) (pid : Nat) : Store :=
  s.filter (fun e => e.1 ≠ pid)

/-- Events emitted by the store (`process:updated`, `state:changed`,
`process:removed`, `metrics:updated`). -/
inductive StoreEvent where
  | processUpdated (p : ClaudeProcess)
  | stateChanged (snapshot : List ClaudeProcess)
  | processRemoved (pid : Nat) (sessionId : String)
  | metricsUpdated (pid : Nat)
deriving DecidableEq, Repr

/-- `SessionStore.getAllProcesses`. -/
def getAllProcesses (s : Store) : List ClaudeProcess :=
  s.map Prod.snd

/-- Spreading a `Partial<ClaudeProcess>` over a full record:
`{ ...p, ...u }`. -/
def mergeInto (p : ClaudeProcess) (u : PartialProcess) : ClaudeProcess :=
  { pid := u.pid.getD p.pid
    sessionId := u.sessionId.getD p.sessionId
    displayName := match u.displayName with
      | some d => some d
      | none => p.displayName
    status := u.status.getD p.status
    cpuUsage := u.cpuUsage.getD p.cpuUsage
    memoryUsage := u.memoryUsage.getD p.memoryUsage
    startTime := u.startTime.getD p.startTime
    lastActiveTime := u.lastActiveTime.getD p.lastActiveTime
    runningTime := u.runningTime.getD p.runningTime
    firstSeenAt := u.firstSeenAt.getD p.firstSeenAt
    workingDir := match u.workingDir with
      | some d => some d
      | none => p.workingDir
    transcriptPath := match u.transcriptPath with
      | some t => some t
      | none => p.transcriptPath }

/-- The `if (!process.displayName)` fix-up in `upsertProcess`; both `undefined`
and the empty string are falsy, and a non-empty `sessionId` is truthy. -/
def ensureDisplayName (pid : Nat) (p : ClaudeProcess) : ClaudeProcess :=
  let needsName : Bool := match p.displayName with
    | some d => d = ""
    | none => true
  let name := if p.sessionId ≠ "" then "Session " ++ jsTake p.sessionId 8
              else "PID " ++ toString pid
  if needsName then { p with displayName := some name } else p

/-- The default record literal of `upsertProcess` for a previously untracked
pid: sessionId defaults to the synthetic pid-NNN form when the partial's
sessionId is falsy, status Idle, zeroed metrics — before the final
`...updates` spread. -/
def upsertBase (now : Nat) (pid : Nat) (u : PartialProcess) : ClaudeProcess :=
  { pid := pid
    sessionId := match u.sessionId with
      | some sid => if sid = "" then "pid-" ++ toString pid else sid
      | none => "pid-" ++ toString pid
    displayName := none
    status := .idle
    cpuUsage := 0
    memoryUsage := 0
    startTime := now
    lastActiveTime := now
    runningTime := "0:00"
    firstSeenAt := now
    workingDir := none
    transcriptPath := none }

/-- The record `upsertProcess` stores when the pid is already tracked:
`{ ...existing, ...updates, lastActiveTime: new Date() }` plus the
displayName fix-up. -/
def upsertExistingRec (now : Nat) (pid : Nat) (u : PartialProcess)
    (existing : ClaudeProcess) : ClaudeProcess :=
  ensureDisplayName pid { mergeInto existing u with lastActiveTime := now }

/-- The record `upsertProcess` stores when the pid is new: defaults with the
partial spread over them, plus the displayName fix-up. -/
def upsertNewRec (now : Nat) (pid : Nat) (u : PartialProcess) : ClaudeProcess :=
  ensureDisplayName pid (mergeInto (upsertBase now pid u) u)

/-- `SessionStore.upsertProcess`.  `now` stands for the `new Date()` calls. -/
def upsertProcess (now : Nat) (pid : Nat) (u : PartialProcess) (s : Store) :
    Store × List StoreEvent :=
  let p : ClaudeProcess :=
    match mapGet s pid with
    | some existing => upsertExistingRec now pid u existing
    | none => upsertNewRec now pid u
  let s' := mapSet s pid p
  (s', [.processUpdated p, .stateChanged (getAllProcesses s')])

/-- The loop body of `updateStatusBySessionId`: walk the map in insertion
order, stop at the first record whose `sessionId` matches (the `break`), and
mutate it in place only when the status actually differs.  Returns the new
store and the updated record when a mutation happened. -/
def updateFirstBySessionId (now : Nat) (sid : String) (st : ProcessStatus) :
    Store → Store × Option ClaudeProcess
  | [] => ([], none)
  | e :: rest =>
    if e.2.sessionId = sid then
      if e.2.status ≠ st then
        let p := { e.2 with status := st, lastActiveTime := now }
        ((e.1, p) :: rest, some p)
      else (e :: rest, none)
    else
      let r := updateFirstBySessionId now sid st rest
      (e :: r.1, r.2)

/-- `SessionStore.updateStatusBySessionId`. -/
def updateStatusBySessionId (now : Nat) (sid : String) (st : ProcessStatus)
    (s : Store) : Store × List StoreEvent :=
  match updateFirstBySessionId now sid st s with
  | (s', some p) => (s', [.processUpdated p, .stateChanged (getAllProcesses s')])
  | (s', none) => (s', [])

/-- `SessionStore.getProcessBySessionId`: first record in insertion order. -/
def getProcessBySessionId (s : Store) (sid : String) : Option ClaudeProcess :=
  (s.find? (fun e => e.2.sessionId = sid)).map Prod.snd

/-- `SessionStore.associateSession`.  `if (transcriptPath)` is a truthiness
test, so an empty string does not overwrite. -/
def associateSession (now : Nat) (pid : Nat) (sid : String)
    (transcriptPath : Option String) (s : Store) : Store × List StoreEvent :=
  match mapGet s pid with
  | some p =>
    let p' : ClaudeProcess :=
      { p with sessionId := sid
               displayName := some ("Session " ++ jsTake sid 8)
               transcriptPath := match transcriptPath with
                 | some t => if t = "" then p.transcriptPath else some t
                 | none => p.transcriptPath }
    let s' := mapSet s pid p'
    (s', [.processUpdated p', .stateChanged (getAllProcesses s')])
  | none =>
    upsertProcess now pid
      { sessionId := some sid, displayName := some ("Session " ++ jsTake sid 8) } s

/-- `SessionStore.removeProcess`. -/
def removeProcess (pid : Nat) (s : Store) : Store × List StoreEvent :=
  match mapGet s pid with
  | none => (s, [])
  | some p =>
    let s' := mapDelete s pid
    (s', [.processRemoved pid p.sessionId, .stateChanged (getAllProcesses s')])

/-- The metrics argument of `SessionStore.updateMetrics`. -/
structure Metrics where
  cpuUsage : Option Int := none
  memoryUsage : Option Int := none
  runningTime : Option String := none
deriving DecidableEq, Repr

/-- `SessionStore.updateMetrics`: per-field change detection; events are
emitted only when some field actually changed, and `lastActiveTime` is not
touched. -/
def updateMetrics (pid : Nat) (m : Metrics) (s : Store) :
    Store × List StoreEvent :=
  match mapGet s pid with
  | none => (s, [])
  | some p =>
    let c₁ : Bool := match m.cpuUsage with
      | some v => p.cpuUsage ≠ v
      | none => false
    let c₂ : Bool := match m.memoryUsage with
      | some v => p.memoryUsage ≠ v
      | none => false
    let c₃ : Bool := match m.runningTime with
      | some v => p.runningTime ≠ v
      | none => false
    let p' : ClaudeProcess :=
      { p with cpuUsage := m.cpuUsage.getD p.cpuUsage
               memoryUsage := m.memoryUsage.getD p.memoryUsage
               runningTime := m.runningTime.getD p.runningTime }
    if c₁ || c₂ || c₃ then
      let s' := mapSet s pid p'
      (s', [.metricsUpdated pid, .stateChanged (getAllProcesses s')])
    else (s, [])

/-- `SessionStore.updateProcess` (`Object.assign`, used by the coordinator to
merge resolved working directories). -/
def updateProcess (pid : Nat) (u : PartialProcess) (s : Store) :
    Store × List StoreEvent :=
  match mapGet s pid with
  | none => (s, [])
  | some p =>
    let p' := mergeInto p u
    let s' := mapSet s pid p'
    (s', [.processUpdated p', .stateChanged (getAllProcesses s')])

/-- `validatePID` from the command-security utilities: accepts integers in
`(0, 2^31 - 1]`, throws otherwise. -/
def validPID (pid : Nat) : Bool :=
  decide (0 < pid) && decide (pid ≤ 2147483647)

/-- `SessionStore.checkDeadProcesses`, parameterised by the liveness oracle
(`isProcessRunning`).  A pid for which `validatePID` throws lands in
`deadPids` via the `catch` branch; otherwise the probe result decides. -/
def checkDeadProcesses (alive : Nat → Bool) (s : Store) :
    Store × List StoreEvent :=
  let deadPids := (s.map Prod.fst).filter (fun pid => !(validPID pid && alive pid))
  deadPids.foldl
    (fun acc pid =>
      let r := removeProcess pid acc.1
      (r.1, acc.2 ++ r.2))
    (s, [])

/-- `HookEventType` from src/src/watchers/HookWatcher.ts. -/
inductive HookEventType where
  | session_start
  | request_start
  | request_stop
deriving DecidableEq, Repr

/-- `HookEvent` (the `timestamp` field is unused by the coordinator). -/
structure HookEvent where
  type : HookEventType
  sessionId : String
  transcriptPath : Option String := none
  pid : Option Nat := none
deriving DecidableEq, Repr

/-- The `switch (event.type)` in `Coordinator.handleHookEvent`. -/
def statusForHook : HookEventType → ProcessStatus
  | .session_start => .idle
  | .request_start => .running
  | .request_stop => .idle

/-- JavaScript truthiness of an optional number: `undefined` and `0` are
falsy. -/
def jsTruthy : Option Nat → Option Nat
  | some n => if n = 0 then none else some n
  | none => none

/-- The partial update `handleHookEvent` passes to `upsertProcess`. -/
def hookPartial (sid : String) (t : HookEventType) : PartialProcess :=
  { sessionId := some sid
    status := some (statusForHook t)
    displayName := some ("Session " ++ jsTake sid 8) }

/-- `Coordinator.handleHookEvent` (the store part; starting the log watcher
has no effect on the store).  `now` stands for the `Date.now()` used for the
placeholder pid and for the store's `new Date()` calls. -/
def handleHookEvent (now : Nat) (e : HookEvent) (s : Store) :
    Store × List StoreEvent :=
  let process := getProcessBySessionId s e.sessionId
  -- let pid = event.pid || process?.pid
  let pidA : Option Nat := match jsTruthy e.pid with
    | some n => some n
    | none => process.map (fun p => p.pid)
  -- if (!pid): first record whose sessionId starts with 'pid-'
  let pidB : Option Nat := match jsTruthy pidA with
    | some n => some n
    | none => (s.find? (fun q => jsStartsWith q.2.sessionId "pid-")).map
        (fun q => q.2.pid)
  -- if (!pid): placeholder pid = Date.now()
  let pid : Nat := match jsTruthy pidB with
    | some n => n
    | none => now
  let r₁ := upsertProcess now pid (hookPartial e.sessionId e.type) s
  -- if (event.pid && event.pid !== pid) associateSession(...)
  let r₂ := match jsTruthy e.pid with
    | some epid =>
      if epid ≠ pid then
        associateSession now epid e.sessionId e.transcriptPath r₁.1
      else (r₁.1, [])
    | none => (r₁.1, [])
  (r₂.1, r₁.2 ++ r₂.2)

/-- `Coordinator.handleLogEvent` for a `USER_INTERRUPT` log event. -/
def handleLogInterrupt (now : Nat) (sid : String) (s : Store) :
    Store × List StoreEvent :=
  updateStatusBySessionId now sid .idle s

/-- `ProcessInfo` from the process scanner. -/
structure ProcessInfo where
  pid : Nat
  cpuUsage : Int
  memoryUsage : Int
  runningTime : String
  startTime : Nat
deriving DecidableEq, Repr

/-- The partial update `scanProcesses` passes to `upsertProcess` for a newly
discovered process. -/
def scanPartial (info : ProcessInfo) : PartialProcess :=
  { cpuUsage := some info.cpuUsage
    memoryUsage := some info.memoryUsage
    runningTime := some info.runningTime
    startTime := some info.startTime
    firstSeenAt := some info.startTime }

/-- The per-process body of `Coordinator.scanProcesses`: metrics update for a
known pid, creation for a newly seen pid. -/
def applyScanOne (now : Nat) (info : ProcessInfo) (s : Store) :
    Store × List StoreEvent :=
  match mapGet s info.pid with
  | some _ =>
    updateMetrics info.pid
      { cpuUsage := some info.cpuUsage
        memoryUsage := some info.memoryUsage
        runningTime := some info.runningTime } s
  | none =>
    upsertProcess now info.pid (scanPartial info) s

/-- `Coordinator.scanProcesses` on a given scan result: apply each scanned
process, then remove every tracked real pid (`pid < 1000000`) absent from the
scan, iterating over the snapshot taken after the upserts. -/
def scanProcesses (now : Nat) (infos : List ProcessInfo) (s : Store) :
    Store × List StoreEvent :=
  let r₁ := infos.foldl
    (fun acc info =>
      let r := applyScanOne now info acc.1
      (r.1, acc.2 ++ r.2))
    (s, [])
  let currentPids := infos.map (fun i => i.pid)
  let toRemove := (getAllProcesses r₁.1).filter
    (fun p => !currentPids.contains p.pid && p.pid < 1000000)
  toRemove.foldl
    (fun acc p =>
      let r := removeProcess p.pid acc.1
      (r.1, acc.2 ++ r.2))
    r₁

/-- Substring containment, modelling JavaScript `String.prototype.includes`. -/
def containsStr (hay needle : String) : Bool :=
  decide (needle.data <:+: hay.data)

/-- The interrupt marker string matched by `LogWatcher.isInterruptEntry`. -/
def interruptMarker : String := "[Request interrupted by user]"

/-- One element of an array-valued `message.content`: a plain string, an
object whose `text` field may be present, or anything else. -/
inductive ContentItem where
  | str (s : String)
  | obj (text : Option String)
  | other
deriving DecidableEq, Repr

/-- The `message.content` of a parsed log line: a plain string, an array of
items, or some other value. -/
inductive Content where
  | str (s : String)
  | arr (items : List ContentItem)
  | other
deriving DecidableEq, Repr

/-- A parsed log entry, as far as `isInterruptEntry` inspects it:
`entry.type` and `entry.message?.content` (`none` when `message` is missing
or has no `content` key). -/
structure LogEntry where
  type : String
  content : Option Content
deriving DecidableEq, Repr

/-- `item?.text?.includes(marker) || (typeof item === 'string' && item.includes(marker))`. -/
def itemHasMarker : ContentItem → Bool
  | .str s => containsStr s interruptMarker
  | .obj (some t) => containsStr t interruptMarker
  | .obj none => false
  | .other => false

/-- `LogWatcher.isInterruptEntry`.  The guard `if (entry.message?.content)` is
a truthiness test: a missing content, and the empty string, fail it; an array
(even empty) passes it. -/
def isInterruptEntry (e : LogEntry) : Bool :=
  if e.type ≠ "user" then false
  else
    match e.content with
    | none => false
    | some (.str s) => if s = "" then false else containsStr s interruptMarker
    | some (.arr items) => items.any itemHasMarker
    | some .other => false

/-- The working-directory cache entry of `WorkingDirResolver`. -/
structure DirCache where
  dir : Option String
  timestamp : Nat
deriving DecidableEq, Repr

/-- The mutable state of `WorkingDirResolver`: the per-pid cache and the
`resolving` set of pids with an in-flight lookup. -/
structure ResolverState where
  cache : List (Nat × DirCache)
  resolving : List Nat
deriving DecidableEq, Repr

/-- `CACHE_TTL` (30 s). -/
def CACHE_TTL : Nat := 30000

/-- Cache lookup. -/
def cacheGet (st : ResolverState) (pid : Nat) : Option DirCache :=
  (st.cache.find? (fun e => e.1 = pid)).map Prod.snd

/-- Cache write (JavaScript `Map.set` semantics). -/
def cacheSet (st : ResolverState) (pid : Nat) (c : DirCache) : ResolverState :=
  { st with cache :=
      if st.cache.any (fun e => e.1 = pid) then
        st.cache.map (fun e => if e.1 = pid then (pid, c) else e)
      else st.cache ++ [(pid, c)] }

/-- `cached?.dir || null`: the empty string is falsy and collapses to null. -/
def dirOrNull : Option DirCache → Option String
  | some c => match c.dir with
    | some d => if d = "" then none else some d
    | none => none
  | none => none

/-- Result of the synchronous prefix of `getWorkingDir`: either a value was
returned without starting a lookup, or an underlying lookup was initiated
(the pid was added to `resolving`). -/
inductive StartResult where
  | done (dir : Option String)
  | started
deriving DecidableEq, Repr

/-- The synchronous prefix of `WorkingDirResolver.getWorkingDir`: the fresh
cache hit, then the `resolving.has(pid)` short-circuit, then the insertion
into `resolving` just before the underlying lookup is awaited. -/
def getWorkingDirStart (now : Nat) (pid : Nat) (st : ResolverState) :
    StartResult × ResolverState :=
  match cacheGet st pid with
  | some c =>
    if now - c.timestamp < CACHE_TTL then (.done c.dir, st)
    else if st.resolving.contains pid then (.done (dirOrNull (some c)), st)
    else (.started, { st with resolving := pid :: st.resolving })
  | none =>
    if st.resolving.contains pid then (.done (dirOrNull none), st)
    else (.started, { st with resolving := pid :: st.resolving })

/-- The continuation of `getWorkingDir` after the underlying lookup finishes.
`outcome = .ok dir` is a resolution that returned (possibly `null`, as a
failed or timed-out platform lookup does); `outcome = .error ()` is a thrown
resolution, handled by the `catch` which returns `cached?.dir || null` and
leaves the cache untouched.  Either way the `finally` removes the pid from
`resolving`. -/
def getWorkingDirFinish (now : Nat) (pid : Nat)
    (outcome : Except Unit (Option String)) (st : ResolverState) :
    Option String × ResolverState :=
  let cached := cacheGet st pid
  let st₀ := { st with resolving := st.resolving.filter (fun q => q ≠ pid) }
  match outcome with
  | .ok dir => (dir, cacheSet st₀ pid { dir := dir, timestamp := now })
  | .error _ => (dirOrNull cached, st₀)

/-- A whole `getWorkingDir` call with no interleaving between its start and
its finish.  Also reports whether an underlying lookup was initiated. -/
def getWorkingDir (now : Nat) (pid : Nat)
    (outcome : Except Unit (Option String)) (st : ResolverState) :
    Option String × ResolverState × Bool :=
  match getWorkingDirStart now pid st with
  | (.done d, st') => (d, st', false)
  | (.started, st') =>
    let r := getWorkingDirFinish now pid outcome st'
    (r.1, r.2, true)

/-! ### Event sequences and invariants used to state the claims -/

/-- A signal for one fixed session, as claim C1 quantifies over them: a hook
event (carrying no pid) or a log-interrupt event. -/
inductive SessionEvent where
  | hook (t : HookEventType)
  | interrupt
deriving DecidableEq, Repr

/-- Apply one timestamped session event through the coordinator. -/
def applySessionEvent (sid : String) (s : Store) (e : Nat × SessionEvent) : Store :=
  match e.2 with
  | .hook t => (handleHookEvent e.1 { type := t, sessionId := sid } s).1
  | .interrupt => (handleLogInterrupt e.1 sid s).1

/-- Apply a timestamped sequence of session events. -/
def applySession (sid : String) (evs : List (Nat × SessionEvent)) (s : Store) :
    Store :=
  evs.foldl (applySessionEvent sid) s

/-- The status implied by the last-applied hook event, demoted to `idle` by a
subsequent interrupt; `none` while no hook event has been applied. -/
def expectedStatus (evs : List (Nat × SessionEvent)) : Option ProcessStatus :=
  evs.foldl
    (fun acc e => match e.2 with
      | .hook t => some (statusForHook t)
      | .interrupt => acc.map (fun _ => ProcessStatus.idle))
    none

/-- Store operations as driven by the coordinator loops, for stating
reachability (claim C5): pid-less hook events, process-table scans, log
interrupts and liveness sweeps. -/
inductive Op where
  | hook (now : Nat) (t : HookEventType) (sid : String)
  | scan (now : Nat) (infos : List ProcessInfo)
  | interrupt (now : Nat) (sid : String)
  | liveness (alive : Nat → Bool)

/-- Apply one coordinator-driven operation. -/
def applyOp (op : Op) (s : Store) : Store :=
  match op with
  | .hook now t sid => (handleHookEvent now { type := t, sessionId := sid } s).1
  | .scan now infos => (scanProcesses now infos s).1
  | .interrupt now sid => (handleLogInterrupt now sid s).1
  | .liveness alive => (checkDeadProcesses alive s).1

/-- Apply a sequence of coordinator-driven operations. -/
def applyOps (ops : List Op) (s : Store) : Store :=
  ops.foldl (fun s op => applyOp op s) s

/-- Sanity conditions on an operation that the real system guarantees:
`Date.now()` is positive, and scanned pids are positive (they come from `ps`
output). -/
def OpOK : Op → Prop
  | .hook now _ _ => 0 < now
  | .scan now infos => 0 < now ∧ ∀ i ∈ infos, 0 < i.pid
  | .interrupt _ _ => True
  | .liveness _ => True

/-- Store well-formedness maintained by the real system: map keys are
distinct, each record's `pid` field equals its map key, and keys are
positive. -/
def WFStore (s : Store) : Prop :=
  (s.map Prod.fst).Nodup ∧ ∀ e ∈ s, e.2.pid = e.1 ∧ 0 < e.1

/-- The sessionIds of the store, in insertion order. -/
def sids (s : Store) : List String :=
  s.map (fun e => e.2.sessionId)

/-- No two distinct records carry the same resolved (non-synthetic)
sessionId: equal sessionIds are allowed only for synthetic `pid-…` ids. -/
def ResolvedUnique (s : Store) : Prop :=
  (sids s).Pairwise (fun a b => a = b → jsStartsWith a "pid-" = true)

/-- Invariant carried along a pid-less event sequence for one sessionId:
before any hook event no record carries the sessionId; afterwards the store
is well-formed and holds exactly one record for the sessionId, stored at its
own pid key and carrying the tracked status. -/
def sessionInv (sid : String) (s : Store) : Option ProcessStatus → Prop
  | none => WFStore s ∧ ∀ e ∈ s, e.2.sessionId ≠ sid
  | some st => WFStore s ∧ ∃ k p, mapGet s k = some p ∧ p.pid = k ∧
      p.sessionId = sid ∧ p.status = st ∧
      ∀ e ∈ s, e.2.sessionId = sid → e = (k, p)

/-- The state-changed notifications among a batch of emitted events. -/
def snapshotEvents (evs : List StoreEvent) : List StoreEvent :=
  evs.filter (fun e => match e with
    | .stateChanged _ => true
    | _ => false)

/-- A store call emitted exactly one state-changed notification, and its
payload is the full current snapshot (what `getAllProcesses` returns). -/
def emitsOneSnapshot (r : Store × List StoreEvent) : Prop :=
  snapshotEvents r.2 = [.stateChanged (getAllProcesses r.1)]

/-- The removal notifications among a batch of emitted events. -/
def removalEvents (evs : List StoreEvent) : List StoreEvent :=
  evs.filter (fun e => match e with
    | .processRemoved _ _ => true
    | _ => false)

/-- The spec's wording of interrupt detection (claim C7): the entry's message
content — a plain string, or a list of items each being a string or an object
with a text field — contains the interrupt marker. -/
def contentMentionsMarker : Option Content → Bool
  | some (.str s) => containsStr s interruptMarker
  | some (.arr items) => items.any itemHasMarker
  | some .other => false
  | none => false

/-- The merge step of `Coordinator.updateWorkingDirs` for one resolved pid:
`if (dir) { store.updateProcess(pid, { workingDir: dir }) }` — only truthy
(non-null, non-empty) directories are merged into the record. -/
def mergeResolvedDir (pid : Nat) (dir : Option String) (s : Store) :
    Store × List StoreEvent :=
  match dir with
  | some d => if d = "" then (s, []) else updateProcess pid { workingDir := some d } s
  | none => (s, [])

/-- Whether the synchronous prefix of `getWorkingDir` initiated an underlying
lookup. -/
def startedCount : StartResult → Nat
  | .started => 1
  | .done _ => 0

/-- The number of positions at which two equal-length stores differ
(used to state that an operation modifies at most one record). -/
def diffCount (s s' : Store) : Nat :=
  (s.zip s').countP (fun q => q.1 ≠ q.2)

/-- The display name `ensureDisplayName` computes when the current one is
falsy. -/
def dispName (k : Nat) (sid : String) : String :=
  if sid ≠ "" then "Session " ++ jsTake sid 8 else "PID " ++ toString k

/-- A concrete record used by witnesses and counterexamples. -/
def sampleRec (pid : Nat) (sid : String) (st : ProcessStatus) : ClaudeProcess :=
  { pid := pid
    sessionId := sid
    displayName := none
    status := st
    cpuUsage := 0
    memoryUsage := 0
    startTime := 0
    lastActiveTime := 0
    runningTime := "0:00"
    firstSeenAt := 0
    workingDir := none
    transcriptPath := none }

/-- A concrete one-record store used by witnesses and counterexamples. -/
def demoRec : ClaudeProcess := sampleRec 5 "abc" .idle

/-- A concrete store used by witnesses and counterexamples. -/
def demoStore : Store := [(5, demoRec)]

/-- A concrete resolver state with a stale cache entry for pid 7. -/
def c8State : ResolverState :=
  { cache := [(7, { dir := some "/a", timestamp := 0 })], resolving := [] }

/-! ### Lemmas about the map model -/

theorem mapGet_nil (k : Nat) : mapGet [] k = none := rfl

theorem mapGet_cons_self (k : Nat) (p : ClaudeProcess) (s : Store) :
    mapGet ((k, p) :: s) k = some p := by
  simp [mapGet]

theorem mapGet_cons_ne (e : Nat × ClaudeProcess) (s : Store) (k : Nat)
    (h : e.1 ≠ k) : mapGet (e :: s) k = mapGet s k := by
  simp [mapGet, List.find?_cons_of_neg, h]

theorem mapGet_eq_none_iff (s : Store) (k : Nat) :
    mapGet s k = none ↔ ∀ e ∈ s, e.1 ≠ k := by
  simp [mapGet, List.find?_eq_none]

theorem mem_of_mapGet_some {s : Store} {k : Nat} {q : ClaudeProcess}
    (h : mapGet s k = some q) : (k, q) ∈ s := by
  unfold mapGet at h
  cases hf : s.find? (fun e => e.1 = k) with
  | none => simp [hf] at h
  | some e =>
    simp only [hf, Option.map_some'] at h
    have hmem := List.mem_of_find?_eq_some hf
    have hpred := List.find?_some hf
    simp only [decide_eq_true_eq] at hpred
    have he : e = (k, q) := by
      cases e with
      | mk a b =>
        simp only at hpred
        simp only [Option.some.injEq] at h
        rw [hpred, h]
    rwa [he] at hmem

theorem mapGet_of_mem {s : Store} {k : Nat} {q : ClaudeProcess}
    (hnd : (s.map Prod.fst).Nodup) (h : (k, q) ∈ s) : mapGet s k = some q := by
  induction s with
  | nil => simp at h
  | cons e rest ih =>
    cases h with
    | head => exact mapGet_cons_self k q rest
    | tail _ hmem =>
      have hk : e.1 ≠ k := by
        intro hek
        have hkin : k ∈ rest.map Prod.fst := List.mem_map_of_mem Prod.fst hmem
        simp only [List.map_cons, List.nodup_cons] at hnd
        exact hnd.1 (hek ▸ hkin)
      rw [mapGet_cons_ne _ _ _ hk]
      exact ih (by simp only [List.map_cons, List.nodup_cons] at hnd; exact hnd.2) hmem

theorem entry_eq_of_key {s : Store} {k : Nat} {x : ClaudeProcess}
    {e : Nat × ClaudeProcess} (hnd : (s.map Prod.fst).Nodup)
    (h1 : (k, x) ∈ s) (h2 : e ∈ s) (hk : e.1 = k) : e = (k, x) := by
  have hx := mapGet_of_mem hnd h1
  have he : e = (e.1, e.2) := rfl
  have := mapGet_of_mem hnd (he ▸ h2)
  rw [hk] at this
  rw [hx] at this
  cases e with
  | mk a b =>
    simp only [Option.some.injEq] at this
    simp only at hk
    rw [hk, this]

theorem mapSet_of_get_none {s : Store} {k : Nat} (p : ClaudeProcess)
    (h : mapGet s k = none) : mapSet s k p = s ++ [(k, p)] := by
  unfold mapSet
  rw [if_neg]
  intro hany
  simp only [List.any_eq_true, decide_eq_true_eq] at hany
  obtain ⟨e, he, hek⟩ := hany
  exact (mapGet_eq_none_iff s k).mp h e he hek

theorem mapSet_of_get_some {s : Store} {k : Nat} {q : ClaudeProcess}
    (p : ClaudeProcess) (h : mapGet s k = some q) :
    mapSet s k p = s.map (fun e => if e.1 = k then (k, p) else e) := by
  unfold mapSet
  rw [if_pos]
  simp only [List.any_eq_true, decide_eq_true_eq]
  exact ⟨(k, q), mem_of_mapGet_some h, rfl⟩

theorem mapGet_append_left {s t : Store} {k : Nat}
    (h : mapGet s k = none) : mapGet (s ++ t) k = mapGet t k := by
  induction s with
  | nil => simp
  | cons e rest ih =>
    have hk : e.1 ≠ k := (mapGet_eq_none_iff _ _).mp h e (by simp)
    rw [List.cons_append, mapGet_cons_ne _ _ _ hk]
    apply ih
    rw [mapGet_eq_none_iff]
    intro e' he'
    exact (mapGet_eq_none_iff _ _).mp h e' (List.mem_cons_of_mem e he')

theorem mapGet_map_replace_self {s : Store} {k : Nat} (p : ClaudeProcess)
    (h : ∃ e ∈ s, e.1 = k) :
    mapGet (s.map (fun e => if e.1 = k then (k, p) else e)) k = some p := by
  induction s with
  | nil => simp at h
  | cons e rest ih =>
    by_cases hek : e.1 = k
    · simp only [List.map_cons, if_pos hek, mapGet_cons_self]
    · simp only [List.map_cons, if_neg hek]
      rw [mapGet_cons_ne _ _ _ hek]
      apply ih
      obtain ⟨e', he', hk'⟩ := h
      rcases List.mem_cons.mp he' with hc | hc
      · exact absurd (hc ▸ hk') hek
      · exact ⟨e', hc, hk'⟩

theorem mapGet_map_replace_ne {s : Store} {k q : Nat} (p : ClaudeProcess)
    (h : q ≠ k) :
    mapGet (s.map (fun e => if e.1 = k then (k, p) else e)) q = mapGet s q := by
  induction s with
  | nil => rfl
  | cons e rest ih =>
    by_cases hek : e.1 = k
    · simp only [List.map_cons, if_pos hek]
      rw [mapGet_cons_ne _ _ _ (by simpa using Ne.symm h),
          mapGet_cons_ne _ _ _ (by rw [hek]; exact fun hh => h hh.symm), ih]
    · simp only [List.map_cons, if_neg hek]
      by_cases heq : e.1 = q
      · cases e with
        | mk a b => simp only at heq; subst heq; rw [mapGet_cons_self, mapGet_cons_self]
      · rw [mapGet_cons_ne _ _ _ heq, mapGet_cons_ne _ _ _ heq, ih]

theorem mapGet_mapSet_self (s : Store) (k : Nat) (p : ClaudeProcess) :
    mapGet (mapSet s k p) k = some p := by
  cases h : mapGet s k with
  | none =>
    rw [mapSet_of_get_none p h, mapGet_append_left h, mapGet_cons_self]
  | some q =>
    rw [mapSet_of_get_some p h]
    exact mapGet_map_replace_self p ⟨(k, q), mem_of_mapGet_some h, rfl⟩

theorem mapGet_append_single_ne (s : Store) (k q : Nat) (p : ClaudeProcess)
    (h : q ≠ k) : mapGet (s ++ [(k, p)]) q = mapGet s q := by
  induction s with
  | nil =>
    simp only [List.nil_append, mapGet_nil]
    exact mapGet_cons_ne _ _ _ (fun hh => h hh.symm)
  | cons e rest ih =>
    by_cases heq : e.1 = q
    · cases e with
      | mk a b =>
        simp only at heq
        subst heq
        rw [List.cons_append, mapGet_cons_self, mapGet_cons_self]
    · rw [List.cons_append, mapGet_cons_ne _ _ _ heq, mapGet_cons_ne _ _ _ heq, ih]

theorem mapGet_mapSet_ne (s : Store) (k q : Nat) (p : ClaudeProcess)
    (h : q ≠ k) : mapGet (mapSet s k p) q = mapGet s q := by
  cases hg : mapGet s k with
  | none =>
    rw [mapSet_of_get_none p hg]
    exact mapGet_append_single_ne s k q p h
  | some x =>
    rw [mapSet_of_get_some p hg]
    exact mapGet_map_replace_ne p h

theorem mem_mapSet {s : Store} {k : Nat} {p : ClaudeProcess}
    {e : Nat × ClaudeProcess} (h : e ∈ mapSet s k p) :
    e = (k, p) ∨ (e ∈ s ∧ e.1 ≠ k) := by
  unfold mapSet at h
  split at h
  · obtain ⟨x, hx, hfx⟩ := List.mem_map.mp h
    by_cases hxk : x.1 = k
    · rw [if_pos hxk] at hfx; exact Or.inl hfx.symm
    · rw [if_neg hxk] at hfx; exact Or.inr ⟨hfx ▸ hx, hfx ▸ hxk⟩
  · rename_i hany
    rcases List.mem_append.mp h with hmem | hmem
    · right
      refine ⟨hmem, fun hk => ?_⟩
      exact hany (by simp only [List.any_eq_true, decide_eq_true_eq]
                     exact ⟨e, hmem, hk⟩)
    · left; simpa using hmem

theorem keys_mapSet_of_get_some {s : Store} {k : Nat} {q : ClaudeProcess}
    (p : ClaudeProcess) (h : mapGet s k = some q) :
    (mapSet s k p).map Prod.fst = s.map Prod.fst := by
  rw [mapSet_of_get_some p h, List.map_map]
  apply List.map_congr_left
  intro e _
  by_cases hek : e.1 = k
  · simp [hek]
  · simp [hek]

/-! ### Field lemmas for record merging -/

theorem mergeInto_pid (p : ClaudeProcess) (u : PartialProcess) :
    (mergeInto p u).pid = u.pid.getD p.pid := rfl

theorem mergeInto_sessionId (p : ClaudeProcess) (u : PartialProcess) :
    (mergeInto p u).sessionId = u.sessionId.getD p.sessionId := rfl

theorem mergeInto_status (p : ClaudeProcess) (u : PartialProcess) :
    (mergeInto p u).status = u.status.getD p.status := rfl

theorem mergeInto_cpuUsage (p : ClaudeProcess) (u : PartialProcess) :
    (mergeInto p u).cpuUsage = u.cpuUsage.getD p.cpuUsage := rfl

theorem mergeInto_memoryUsage (p : ClaudeProcess) (u : PartialProcess) :
    (mergeInto p u).memoryUsage = u.memoryUsage.getD p.memoryUsage := rfl

theorem mergeInto_startTime (p : ClaudeProcess) (u : PartialProcess) :
    (mergeInto p u).startTime = u.startTime.getD p.startTime := rfl

theorem mergeInto_lastActiveTime (p : ClaudeProcess) (u : PartialProcess) :
    (mergeInto p u).lastActiveTime = u.lastActiveTime.getD p.lastActiveTime := rfl

theorem mergeInto_runningTime (p : ClaudeProcess) (u : PartialProcess) :
    (mergeInto p u).runningTime = u.runningTime.getD p.runningTime := rfl

theorem mergeInto_firstSeenAt (p : ClaudeProcess) (u : PartialProcess) :
    (mergeInto p u).firstSeenAt = u.firstSeenAt.getD p.firstSeenAt := rfl

theorem ensureDisplayName_pid (k : Nat) (p : ClaudeProcess) :
    (ensureDisplayName k p).pid = p.pid := by
  unfold ensureDisplayName
  dsimp only
  split <;> rfl

theorem ensureDisplayName_sessionId (k : Nat) (p : ClaudeProcess) :
    (ensureDisplayName k p).sessionId = p.sessionId := by
  unfold ensureDisplayName
  dsimp only
  split <;> rfl

theorem ensureDisplayName_status (k : Nat) (p : ClaudeProcess) :
    (ensureDisplayName k p).status = p.status := by
  unfold ensureDisplayName
  dsimp only
  split <;> rfl

theorem ensureDisplayName_cpuUsage (k : Nat) (p : ClaudeProcess) :
    (ensureDisplayName k p).cpuUsage = p.cpuUsage := by
  unfold ensureDisplayName
  dsimp only
  split <;> rfl

theorem ensureDisplayName_memoryUsage (k : Nat) (p : ClaudeProcess) :
    (ensureDisplayName k p).memoryUsage = p.memoryUsage := by
  unfold ensureDisplayName
  dsimp only
  split <;> rfl

theorem ensureDisplayName_lastActiveTime (k : Nat) (p : ClaudeProcess) :
    (ensureDisplayName k p).lastActiveTime = p.lastActiveTime := by
  unfold ensureDisplayName
  dsimp only
  split <;> rfl

theorem upsertExistingRec_pid (now k : Nat) (u : PartialProcess)
    (q : ClaudeProcess) :
    (upsertExistingRec now k u q).pid = u.pid.getD q.pid := by
  unfold upsertExistingRec
  rw [ensureDisplayName_pid]
  rfl

theorem upsertExistingRec_sessionId (now k : Nat) (u : PartialProcess)
    (q : ClaudeProcess) :
    (upsertExistingRec now k u q).sessionId = u.sessionId.getD q.sessionId := by
  unfold upsertExistingRec
  rw [ensureDisplayName_sessionId]
  rfl

theorem upsertExistingRec_status (now k : Nat) (u : PartialProcess)
    (q : ClaudeProcess) :
    (upsertExistingRec now k u q).status = u.status.getD q.status := by
  unfold upsertExistingRec
  rw [ensureDisplayName_status]
  rfl

theorem upsertNewRec_pid (now k : Nat) (u : PartialProcess) :
    (upsertNewRec now k u).pid = u.pid.getD k := by
  unfold upsertNewRec
  rw [ensureDisplayName_pid, mergeInto_pid]
  rfl

theorem upsertNewRec_sessionId (now k : Nat) (u : PartialProcess) :
    (upsertNewRec now k u).sessionId =
      u.sessionId.getD ((upsertBase now k u).sessionId) := by
  unfold upsertNewRec
  rw [ensureDisplayName_sessionId, mergeInto_sessionId]

theorem upsertNewRec_status (now k : Nat) (u : PartialProcess) :
    (upsertNewRec now k u).status = u.status.getD .idle := by
  unfold upsertNewRec
  rw [ensureDisplayName_status, mergeInto_status]
  rfl

/-! ### Reduction lemmas for the store operations -/

theorem upsertProcess_existing {s : Store} {k : Nat} {q : ClaudeProcess}
    (now : Nat) (u : PartialProcess) (h : mapGet s k = some q) :
    upsertProcess now k u s =
      (mapSet s k (upsertExistingRec now k u q),
       [.processUpdated (upsertExistingRec now k u q),
        .stateChanged (getAllProcesses (mapSet s k (upsertExistingRec now k u q)))]) := by
  unfold upsertProcess
  rw [h]

theorem upsertProcess_new {s : Store} {k : Nat}
    (now : Nat) (u : PartialProcess) (h : mapGet s k = none) :
    upsertProcess now k u s =
      (s ++ [(k, upsertNewRec now k u)],
       [.processUpdated (upsertNewRec now k u),
        .stateChanged (getAllProcesses (s ++ [(k, upsertNewRec now k u)]))]) := by
  unfold upsertProcess
  rw [h]
  dsimp only
  rw [mapSet_of_get_none _ h]

theorem handleHookEvent_noPid_found {s : Store} {sid : String}
    {p : ClaudeProcess} (now : Nat) (t : HookEventType)
    (hfind : getProcessBySessionId s sid = some p) (hp : 0 < p.pid) :
    handleHookEvent now { type := t, sessionId := sid } s =
      upsertProcess now p.pid (hookPartial sid t) s := by
  unfold handleHookEvent
  rw [hfind]
  simp [jsTruthy, Nat.pos_iff_ne_zero.mp hp]

theorem handleHookEvent_noPid_bind {s : Store} {sid : String}
    {q : Nat × ClaudeProcess} (now : Nat) (t : HookEventType)
    (hfind : getProcessBySessionId s sid = none)
    (hpidrec : s.find? (fun e => jsStartsWith e.2.sessionId "pid-") = some q)
    (hq : 0 < q.2.pid) :
    handleHookEvent now { type := t, sessionId := sid } s =
      upsertProcess now q.2.pid (hookPartial sid t) s := by
  unfold handleHookEvent
  rw [hfind, hpidrec]
  simp [jsTruthy, Nat.pos_iff_ne_zero.mp hq]

theorem handleHookEvent_noPid_placeholder {s : Store} {sid : String}
    (now : Nat) (t : HookEventType)
    (hfind : getProcessBySessionId s sid = none)
    (hpidrec : s.find? (fun e => jsStartsWith e.2.sessionId "pid-") = none) :
    handleHookEvent now { type := t, sessionId := sid } s =
      upsertProcess now now (hookPartial sid t) s := by
  unfold handleHookEvent
  rw [hfind, hpidrec]
  simp [jsTruthy]

/-! ### Sublist and well-formedness lemmas -/

theorem removeProcess_fst_sublist (pid : Nat) (s : Store) :
    (removeProcess pid s).1.Sublist s := by
  unfold removeProcess
  split
  · exact List.Sublist.refl s
  · exact List.filter_sublist s

theorem foldl_remove_sublist {α : Type} (f : α → Nat) (xs : List α)
    (init : Store × List StoreEvent) :
    ((xs.foldl (fun acc x =>
      let r := removeProcess (f x) acc.1
      (r.1, acc.2 ++ r.2)) init).1).Sublist init.1 := by
  induction xs generalizing init with
  | nil => exact List.Sublist.refl _
  | cons x rest ih =>
    simp only [List.foldl_cons]
    exact (ih _).trans (removeProcess_fst_sublist (f x) init.1)

theorem WFStore_sublist {s' s : Store} (h : s'.Sublist s) (hwf : WFStore s) :
    WFStore s' :=
  ⟨hwf.1.sublist (h.map Prod.fst), fun e he => hwf.2 e (h.mem he)⟩

theorem WFStore_mapSet_existing {s : Store} {k : Nat} {q : ClaudeProcess}
    (p : ClaudeProcess) (hwf : WFStore s) (hget : mapGet s k = some q)
    (hp : p.pid = k) : WFStore (mapSet s k p) := by
  constructor
  · rw [keys_mapSet_of_get_some p hget]
    exact hwf.1
  · intro e he
    rcases mem_mapSet he with he | ⟨he, _⟩
    · rw [he]
      exact ⟨hp, (hwf.2 (k, q) (mem_of_mapGet_some hget)).2⟩
    · exact hwf.2 e he

theorem WFStore_append_new {s : Store} {k : Nat} (p : ClaudeProcess)
    (hwf : WFStore s) (hget : mapGet s k = none) (hp : p.pid = k)
    (hk : 0 < k) : WFStore (s ++ [(k, p)]) := by
  constructor
  · rw [List.map_append]
    apply List.Nodup.append hwf.1 (by simp)
    intro a ha hb
    simp only [List.map_cons, List.map_nil, List.mem_singleton] at hb
    obtain ⟨e, he, hek⟩ := List.mem_map.mp ha
    exact (mapGet_eq_none_iff s k).mp hget e he (by rw [hek, hb])
  · intro e he
    rcases List.mem_append.mp he with he | he
    · exact hwf.2 e he
    · simp only [List.mem_singleton] at he
      rw [he]
      exact ⟨hp, hk⟩

/-! ### Decomposition at a key, and ResolvedUnique lemmas -/

theorem exists_decomp_of_mapGet_some {s : Store} {k : Nat} {q : ClaudeProcess}
    (hnd : (s.map Prod.fst).Nodup) (hget : mapGet s k = some q) :
    ∃ s₁ s₂, s = s₁ ++ (k, q) :: s₂ ∧ (∀ e ∈ s₁, e.1 ≠ k) ∧
      (∀ e ∈ s₂, e.1 ≠ k) := by
  obtain ⟨s₁, s₂, hs⟩ := List.append_of_mem (mem_of_mapGet_some hget)
  refine ⟨s₁, s₂, hs, ?_, ?_⟩
  · intro e he hek
    subst hs
    have h1 : k ∈ s₁.map Prod.fst := hek ▸ List.mem_map_of_mem Prod.fst he
    have h2 : k ∈ ((k, q) :: s₂).map Prod.fst := by simp
    rw [List.map_append] at hnd
    exact (List.disjoint_of_nodup_append hnd) h1 h2
  · intro e he hek
    subst hs
    rw [List.map_append] at hnd
    have hnd2 := (List.nodup_append.mp hnd).2.1
    simp only [List.map_cons, List.nodup_cons] at hnd2
    exact hnd2.1 (hek ▸ List.mem_map_of_mem Prod.fst he)

theorem map_replace_id (l : Store) (k : Nat) (p : ClaudeProcess)
    (hl : ∀ e ∈ l, e.1 ≠ k) :
    l.map (fun e => if e.1 = k then (k, p) else e) = l := by
  induction l with
  | nil => rfl
  | cons e rest ih =>
    rw [List.map_cons, if_neg (hl e (by simp)), ih]
    intro e' he'
    exact hl e' (List.mem_cons_of_mem _ he')

theorem mapSet_decomp (s₁ s₂ : Store) (k : Nat) (q p : ClaudeProcess)
    (h₁ : ∀ e ∈ s₁, e.1 ≠ k) (h₂ : ∀ e ∈ s₂, e.1 ≠ k) :
    mapSet (s₁ ++ (k, q) :: s₂) k p = s₁ ++ (k, p) :: s₂ := by
  unfold mapSet
  rw [if_pos]
  · rw [List.map_append, List.map_cons]
    rw [map_replace_id s₁ k p h₁, map_replace_id s₂ k p h₂]
    simp
  · simp only [List.any_eq_true, decide_eq_true_eq]
    exact ⟨(k, q), by simp, rfl⟩

theorem sids_append (s t : Store) : sids (s ++ t) = sids s ++ sids t :=
  List.map_append _ s t

theorem ResolvedUnique_congr {s' s : Store} (h : sids s' = sids s)
    (hru : ResolvedUnique s) : ResolvedUnique s' := by
  unfold ResolvedUnique
  rw [h]
  exact hru

theorem ResolvedUnique_sublist {s' s : Store} (h : s'.Sublist s)
    (hru : ResolvedUnique s) : ResolvedUnique s' :=
  hru.sublist (h.map _)

theorem sids_mapSet_same {s : Store} {k : Nat} {q : ClaudeProcess}
    (p : ClaudeProcess) (hnd : (s.map Prod.fst).Nodup)
    (hget : mapGet s k = some q) (hsid : p.sessionId = q.sessionId) :
    sids (mapSet s k p) = sids s := by
  rw [mapSet_of_get_some p hget]
  unfold sids
  rw [List.map_map]
  apply List.map_congr_left
  intro e he
  by_cases hek : e.1 = k
  · have := entry_eq_of_key hnd (mem_of_mapGet_some hget) he hek
    simp [hek, this, hsid]
  · simp [hek]

theorem ResolvedUnique_replace (s₁ s₂ : Store) (k : Nat)
    (q p : ClaudeProcess)
    (hru : ResolvedUnique (s₁ ++ (k, q) :: s₂))
    (hp : (∀ e ∈ s₁ ++ s₂, e.2.sessionId ≠ p.sessionId) ∨
      jsStartsWith p.sessionId "pid-" = true) :
    ResolvedUnique (s₁ ++ (k, p) :: s₂) := by
  unfold ResolvedUnique sids at hru ⊢
  rw [List.map_append, List.map_cons] at hru ⊢
  rw [List.pairwise_append] at hru ⊢
  rw [List.pairwise_cons] at hru ⊢
  obtain ⟨hpw₁, ⟨hq₂, hpw₂⟩, hcross⟩ := hru
  refine ⟨hpw₁, ⟨?_, hpw₂⟩, ?_⟩
  · intro b hb hpb
    rcases hp with hp | hp
    · exact absurd hpb.symm
        (by obtain ⟨e, he, hsb⟩ := List.mem_map.mp hb
            exact hsb ▸ hp e (List.mem_append.mpr (Or.inr he)))
    · exact hpb ▸ hp
  · intro a ha b hb
    rcases List.mem_cons.mp hb with hb | hb
    · subst hb
      intro hab
      rcases hp with hp | hp
      · exact absurd hab
          (by obtain ⟨e, he, hsa⟩ := List.mem_map.mp ha
              exact hsa ▸ hp e (List.mem_append.mpr (Or.inl he)))
      · rw [hab]
        exact hp
    · exact hcross a ha b (List.mem_cons_of_mem _ hb)

theorem ResolvedUnique_append (s : Store) (k : Nat) (p : ClaudeProcess)
    (hru : ResolvedUnique s)
    (hp : (∀ e ∈ s, e.2.sessionId ≠ p.sessionId) ∨
      jsStartsWith p.sessionId "pid-" = true) :
    ResolvedUnique (s ++ [(k, p)]) := by
  unfold ResolvedUnique sids at hru ⊢
  rw [List.map_append, List.pairwise_append]
  refine ⟨hru, by simp, ?_⟩
  intro a ha b hb
  simp only [List.map_cons, List.map_nil, List.mem_singleton] at hb
  subst hb
  intro hab
  rcases hp with hp | hp
  · exact absurd hab
      (by obtain ⟨e, he, hsa⟩ := List.mem_map.mp ha
          exact hsa ▸ hp e he)
  · rw [hab]
    exact hp

/-! ### Lemmas about updateStatusBySessionId -/

theorem updateFirst_none {s : Store} {sid : String}
    (now : Nat) (st : ProcessStatus)
    (h : ∀ e ∈ s, e.2.sessionId ≠ sid) :
    updateFirstBySessionId now sid st s = (s, none) := by
  induction s with
  | nil => rfl
  | cons e rest ih =>
    unfold updateFirstBySessionId
    rw [if_neg (h e (by simp))]
    rw [ih (fun e' he' => h e' (List.mem_cons_of_mem _ he'))]

theorem updateFirst_proj (now : Nat) (sid : String) (st : ProcessStatus)
    (s : Store) :
    ((updateFirstBySessionId now sid st s).1).map
        (fun e => (e.1, e.2.pid, e.2.sessionId)) =
      s.map (fun e => (e.1, e.2.pid, e.2.sessionId)) := by
  induction s with
  | nil => rfl
  | cons e rest ih =>
    unfold updateFirstBySessionId
    by_cases hsid : e.2.sessionId = sid
    · rw [if_pos hsid]
      by_cases hst : e.2.status = st
      · rw [if_neg (by simpa using hst)]
      · rw [if_pos (by simpa using hst)]
        simp
    · rw [if_neg hsid]
      simp only [List.map_cons]
      rw [ih]

theorem updateFirst_length (now : Nat) (sid : String) (st : ProcessStatus)
    (s : Store) :
    ((updateFirstBySessionId now sid st s).1).length = s.length := by
  have h := congrArg List.length (updateFirst_proj now sid st s)
  simpa using h

theorem diffCount_self (s : Store) : diffCount s s = 0 := by
  induction s with
  | nil => rfl
  | cons e rest ih =>
    unfold diffCount at ih ⊢
    rw [List.zip_cons_cons, List.countP_cons, ih]
    simp

theorem diffCount_cons (e e' : Nat × ClaudeProcess) (s s' : Store) :
    diffCount (e :: s) (e' :: s') =
      diffCount s s' + (if e ≠ e' then 1 else 0) := by
  unfold diffCount
  rw [List.zip_cons_cons, List.countP_cons]
  by_cases h : e = e' <;> simp [h]

theorem updateFirst_diffCount (now : Nat) (sid : String) (st : ProcessStatus)
    (s : Store) :
    diffCount s (updateFirstBySessionId now sid st s).1 ≤ 1 := by
  induction s with
  | nil => simp [diffCount, updateFirstBySessionId]
  | cons e rest ih =>
    unfold updateFirstBySessionId
    by_cases hsid : e.2.sessionId = sid
    · rw [if_pos hsid]
      by_cases hst : e.2.status = st
      · rw [if_neg (by simpa using hst)]
        simp only
        rw [diffCount_cons, diffCount_self]
        simp
      · rw [if_pos (by simpa using hst)]
        simp only
        rw [diffCount_cons, diffCount_self]
        split <;> simp
    · rw [if_neg hsid]
      simp only
      rw [diffCount_cons]
      have : (if e ≠ e then 1 else 0) = 0 := by simp
      rw [this, Nat.add_zero]
      exact ih

theorem mapSet_cons_of_ne (e : Nat × ClaudeProcess) (s : Store) (k : Nat)
    (p : ClaudeProcess) (hek : e.1 ≠ k)
    (hin : s.any (fun x => x.1 = k) = true) :
    mapSet (e :: s) k p = e :: mapSet s k p := by
  unfold mapSet
  rw [if_pos, if_pos hin, List.map_cons, if_neg hek]
  simp only [List.any_cons, Bool.or_eq_true]
  exact Or.inr hin

theorem updateFirst_first_same {s : Store} {sid : String}
    {e₀ : Nat × ClaudeProcess} (now : Nat) (st : ProcessStatus)
    (hfind : s.find? (fun e => e.2.sessionId = sid) = some e₀)
    (hst : e₀.2.status = st) :
    updateFirstBySessionId now sid st s = (s, none) := by
  induction s with
  | nil => simp at hfind
  | cons e rest ih =>
    by_cases he : e.2.sessionId = sid
    · rw [List.find?_cons_of_pos _ (by simpa using he)] at hfind
      simp only [Option.some.injEq] at hfind
      subst hfind
      unfold updateFirstBySessionId
      rw [if_pos he, if_neg (by simpa using hst)]
    · rw [List.find?_cons_of_neg _ (by simpa using he)] at hfind
      unfold updateFirstBySessionId
      rw [if_neg he, ih hfind]

theorem updateFirst_unique {s : Store} {k : Nat} {p : ClaudeProcess}
    {sid : String} (now : Nat) (st : ProcessStatus)
    (hnd : (s.map Prod.fst).Nodup) (hmem : (k, p) ∈ s)
    (hsid : p.sessionId = sid)
    (huni : ∀ e ∈ s, e.2.sessionId = sid → e = (k, p)) :
    (p.status = st → updateFirstBySessionId now sid st s = (s, none)) ∧
    (p.status ≠ st → updateFirstBySessionId now sid st s =
      (mapSet s k { p with status := st, lastActiveTime := now },
       some { p with status := st, lastActiveTime := now })) := by
  induction s with
  | nil => simp at hmem
  | cons e rest ih =>
    by_cases he : e.2.sessionId = sid
    · have heq : e = (k, p) := huni e (by simp) he
      subst heq
      constructor
      · intro hst
        unfold updateFirstBySessionId
        rw [if_pos he, if_neg (by simpa using hst)]
      · intro hst
        unfold updateFirstBySessionId
        rw [if_pos he, if_pos (by simpa using hst)]
        simp only
        congr 1
        unfold mapSet
        rw [if_pos (by simp), List.map_cons]
        simp only [if_pos rfl]
        rw [map_replace_id rest k _ ?hrest]
        · simp
        case hrest =>
          intro e' he' hek
          simp only [List.map_cons, List.nodup_cons] at hnd
          exact hnd.1 (hek ▸ List.mem_map_of_mem Prod.fst he')
    · have hek : (k, p) ∈ rest := by
        rcases List.mem_cons.mp hmem with hh | hh
        · exact absurd (congrArg (fun e => e.2.sessionId) hh.symm)
            (by simpa [hsid] using he)
        · exact hh
      have hkne : e.1 ≠ k := by
        intro hc
        simp only [List.map_cons, List.nodup_cons] at hnd
        exact hnd.1 (hc ▸ List.mem_map_of_mem Prod.fst hek)
      have ihr := ih
        (by simp only [List.map_cons, List.nodup_cons] at hnd; exact hnd.2)
        hek
        (fun e' he' hh => huni e' (List.mem_cons_of_mem _ he') hh)
      constructor
      · intro hst
        unfold updateFirstBySessionId
        rw [if_neg he, ihr.1 hst]
      · intro hst
        unfold updateFirstBySessionId
        rw [if_neg he, ihr.2 hst]
        simp only
        rw [mapSet_cons_of_ne e rest k _ hkne]
        simp only [List.any_eq_true, decide_eq_true_eq]
        exact ⟨(k, p), hek, rfl⟩

theorem updateStatus_of_no_match {s : Store} {sid : String}
    (now : Nat) (st : ProcessStatus)
    (h : ∀ e ∈ s, e.2.sessionId ≠ sid) :
    updateStatusBySessionId now sid st s = (s, []) := by
  unfold updateStatusBySessionId
  rw [updateFirst_none now st h]

theorem updateStatus_of_first_same {s : Store} {sid : String}
    {e₀ : Nat × ClaudeProcess} (now : Nat) (st : ProcessStatus)
    (hfind : s.find? (fun e => e.2.sessionId = sid) = some e₀)
    (hst : e₀.2.status = st) :
    updateStatusBySessionId now sid st s = (s, []) := by
  unfold updateStatusBySessionId
  rw [updateFirst_first_same now st hfind hst]

theorem updateStatus_unique_changed {s : Store} {k : Nat} {p : ClaudeProcess}
    {sid : String} (now : Nat) (st : ProcessStatus)
    (hnd : (s.map Prod.fst).Nodup) (hmem : (k, p) ∈ s)
    (hsid : p.sessionId = sid)
    (huni : ∀ e ∈ s, e.2.sessionId = sid → e = (k, p))
    (hst : p.status ≠ st) :
    updateStatusBySessionId now sid st s =
      (mapSet s k { p with status := st, lastActiveTime := now },
       [.processUpdated { p with status := st, lastActiveTime := now },
        .stateChanged (getAllProcesses
          (mapSet s k { p with status := st, lastActiveTime := now }))]) := by
  unfold updateStatusBySessionId
  rw [(updateFirst_unique now st hnd hmem hsid huni).2 hst]

/-! ### Lemmas about removeProcess -/

theorem removeProcess_known {s : Store} {pid : Nat} {p : ClaudeProcess}
    (h : mapGet s pid = some p) :
    removeProcess pid s =
      (mapDelete s pid,
       [.processRemoved pid p.sessionId,
        .stateChanged (getAllProcesses (mapDelete s pid))]) := by
  unfold removeProcess
  rw [h]

theorem removeProcess_unknown {s : Store} {pid : Nat}
    (h : mapGet s pid = none) : removeProcess pid s = (s, []) := by
  unfold removeProcess
  rw [h]

theorem mapDelete_id {s : Store} {pid : Nat}
    (h : ∀ e ∈ s, e.1 ≠ pid) : mapDelete s pid = s := by
  unfold mapDelete
  induction s with
  | nil => rfl
  | cons e rest ih =>
    rw [List.filter_cons_of_pos (by simpa using h e (by simp))]
    rw [ih (fun e' he' => h e' (List.mem_cons_of_mem _ he'))]

theorem mapGet_mapDelete_self (s : Store) (pid : Nat) :
    mapGet (mapDelete s pid) pid = none := by
  rw [mapGet_eq_none_iff]
  intro e he
  have := List.of_mem_filter he
  simpa using this

theorem mapGet_mapDelete_ne (s : Store) (pid q : Nat) (h : q ≠ pid) :
    mapGet (mapDelete s pid) q = mapGet s q := by
  induction s with
  | nil => rfl
  | cons e rest ih =>
    unfold mapDelete
    by_cases hep : e.1 = pid
    · rw [List.filter_cons_of_neg (by simpa using hep)]
      rw [mapGet_cons_ne _ _ _ (by rw [hep]; exact fun hh => h hh.symm)]
      exact ih
    · rw [List.filter_cons_of_pos (by simpa using hep)]
      by_cases heq : e.1 = q
      · cases e with
        | mk a b =>
          simp only at heq
          subst heq
          rw [mapGet_cons_self, mapGet_cons_self]
      · rw [mapGet_cons_ne _ _ _ heq, mapGet_cons_ne _ _ _ heq]
        exact ih

theorem mapDelete_length {s : Store} {pid : Nat} {p : ClaudeProcess}
    (hnd : (s.map Prod.fst).Nodup) (h : mapGet s pid = some p) :
    (mapDelete s pid).length + 1 = s.length := by
  obtain ⟨s₁, s₂, hs, h₁, h₂⟩ := exists_decomp_of_mapGet_some hnd h
  subst hs
  unfold mapDelete
  rw [List.filter_append, List.filter_cons_of_neg (by simp)]
  rw [List.filter_eq_self.mpr (fun e he => by simpa using h₁ e he),
      List.filter_eq_self.mpr (fun e he => by simpa using h₂ e he)]
  simp only [List.length_append, List.length_cons]
  omega

/-! ### Claim C6 -/

/-- C6: `removeProcess` on a tracked pid removes exactly that one record and
emits exactly one removal notification; a second remove of the same pid, or a
remove of an unknown pid, leaves the store unchanged and emits nothing. -/
theorem C6_remove_once (pid : Nat) (s : Store)
    (hnd : (s.map Prod.fst).Nodup) :
    (∀ p, mapGet s pid = some p →
      ((removeProcess pid s).1.length + 1 = s.length ∧
       mapGet (removeProcess pid s).1 pid = none ∧
       (∀ q, q ≠ pid → mapGet (removeProcess pid s).1 q = mapGet s q) ∧
       removalEvents (removeProcess pid s).2 =
         [.processRemoved pid p.sessionId] ∧
       removeProcess pid (removeProcess pid s).1 =
         ((removeProcess pid s).1, []))) ∧
    (mapGet s pid = none → removeProcess pid s = (s, [])) := by
  constructor
  · intro p hp
    rw [removeProcess_known hp]
    refine ⟨mapDelete_length hnd hp, mapGet_mapDelete_self s pid, ?_, rfl, ?_⟩
    · intro q hq
      exact mapGet_mapDelete_ne s pid q hq
    · exact removeProcess_unknown (mapGet_mapDelete_self s pid)
  · intro h
    exact removeProcess_unknown h

/-- Witness for C6 at a concrete store. -/
theorem C6_remove_once_witness :
    ((List.map Prod.fst demoStore).Nodup ∧ mapGet demoStore 5 = some demoRec) ∧
    (removeProcess 5 demoStore).1.length + 1 = demoStore.length ∧
    removalEvents (removeProcess 5 demoStore).2 =
      [.processRemoved 5 "abc"] := by
  refine ⟨⟨by decide, by decide⟩, ?_, ?_⟩
  · exact ((C6_remove_once 5 demoStore (by decide)).1 demoRec (by decide)).1
  · exact ((C6_remove_once 5 demoStore (by decide)).1 demoRec (by decide)).2.2.2.1

/-! ### Claim C10 -/

theorem updateFirst_none_fst {s : Store} {sid : String}
    (now : Nat) (st : ProcessStatus)
    (h : (updateFirstBySessionId now sid st s).2 = none) :
    (updateFirstBySessionId now sid st s).1 = s := by
  induction s with
  | nil => rfl
  | cons e rest ih =>
    unfold updateFirstBySessionId at h ⊢
    by_cases he : e.2.sessionId = sid
    · rw [if_pos he] at h ⊢
      by_cases hst : e.2.status = st
      · rw [if_neg (by simpa using hst)] at h ⊢
      · rw [if_pos (by simpa using hst)] at h
        simp at h
    · rw [if_neg he] at h ⊢
      simp only at h ⊢
      rw [ih h]

theorem updateStatus_fst (now : Nat) (sid : String) (st : ProcessStatus)
    (s : Store) :
    (updateStatusBySessionId now sid st s).1 =
      (updateFirstBySessionId now sid st s).1 := by
  unfold updateStatusBySessionId
  split
  · rename_i s' p heq
    rw [heq]
  · rename_i s' heq
    rw [heq]

/-- C10: `updateStatusBySessionId` modifies at most one record, and is a
silent no-op — store unchanged, no notification — when no record carries the
sessionId or when the first matching record already has the target status. -/
theorem C10_updateStatus_guards (now : Nat) (sid : String)
    (st : ProcessStatus) (s : Store) :
    ((updateStatusBySessionId now sid st s).1).length = s.length ∧
    diffCount s (updateStatusBySessionId now sid st s).1 ≤ 1 ∧
    ((∀ e ∈ s, e.2.sessionId ≠ sid) →
      updateStatusBySessionId now sid st s = (s, [])) ∧
    (∀ e₀, s.find? (fun e => e.2.sessionId = sid) = some e₀ →
      e₀.2.status = st → updateStatusBySessionId now sid st s = (s, [])) := by
  refine ⟨?_, ?_, ?_, ?_⟩
  · rw [updateStatus_fst]
    exact updateFirst_length now sid st s
  · rw [updateStatus_fst]
    exact updateFirst_diffCount now sid st s
  · exact updateStatus_of_no_match now st
  · intro e₀ hfind hst
    exact updateStatus_of_first_same now st hfind hst

/-- Witness for C10: a log interrupt for an untracked sessionId and a
same-status update are both silent no-ops. -/
theorem C10_updateStatus_guards_witness :
    (∀ e ∈ demoStore, e.2.sessionId ≠ "zzz") ∧
    updateStatusBySessionId 9 "zzz" .running demoStore = (demoStore, []) ∧
    updateStatusBySessionId 9 "abc" .idle demoStore = (demoStore, []) := by
  refine ⟨by decide, ?_, ?_⟩
  · exact (C10_updateStatus_guards 9 "zzz" .running demoStore).2.2.1 (by decide)
  · exact (C10_updateStatus_guards 9 "abc" .idle demoStore).2.2.2
      (5, demoRec) (by decide) (by decide)

/-! ### Claim C7 -/

/-- C7: the interrupt predicate holds exactly when the entry is user-typed
and its message content (plain string or item list) contains the interrupt
marker; all other entries do not qualify. -/
theorem C7_interrupt_iff (e : LogEntry) :
    isInterruptEntry e = true ↔
      e.type = "user" ∧ contentMentionsMarker e.content = true := by
  unfold isInterruptEntry contentMentionsMarker
  by_cases ht : e.type = "user"
  · rw [if_neg (by simp [ht])]
    cases hc : e.content with
    | none => simp [ht]
    | some c =>
      cases c with
      | str s =>
        by_cases hs : s = ""
        · subst hs
          simp [ht, show containsStr "" interruptMarker = false from by decide]
        · simp [ht, hs]
      | arr items => simp [ht]
      | other => simp [ht]
  · rw [if_pos (by simpa using ht)]
    simp [ht]

/-- Witness for C7: a user entry with an item list containing the marker
qualifies; an assistant entry with the same content does not. -/
theorem C7_interrupt_iff_witness :
    isInterruptEntry
      { type := "user"
        content := some (.arr [.obj (some "xx[Request interrupted by user]")]) } =
      true ∧
    isInterruptEntry
      { type := "assistant"
        content := some (.str "[Request interrupted by user]") } = false := by
  constructor
  · exact (C7_interrupt_iff _).mpr ⟨rfl, by decide⟩
  · by_contra h
    simp only [Bool.not_eq_false] at h
    have := (C7_interrupt_iff _).mp h
    simp at this

/-! ### Claim C2 (code bug) -/

/-- C2: contrary to the claim (and the spec's placeholder exemption), the
liveness sweep removes a placeholder record even when every probe would
report the process alive: `validatePID` rejects any pid above 2^31 − 1
(placeholder pids are `Date.now()` values ≈ 1.7·10^12), the `catch` marks
the pid dead, and the record is removed.  The scan loop, by contrast, does
exempt the placeholder (pid ≥ 1 000 000). -/
theorem C2_liveness_removes_placeholder :
    validPID 1760000000000 = false ∧
    (checkDeadProcesses (fun _ => true)
      [(1760000000000, sampleRec 1760000000000 "abc" .idle)]).1 = [] ∧
    (checkDeadProcesses (fun _ => true)
      [(1760000000000, sampleRec 1760000000000 "abc" .idle)]).2 =
      [.processRemoved 1760000000000 "abc", .stateChanged []] ∧
    (scanProcesses 1 []
      [(1760000000000, sampleRec 1760000000000 "abc" .idle)]).1 =
      [(1760000000000, sampleRec 1760000000000 "abc" .idle)] := by
  refine ⟨by decide, by decide, by decide, by decide⟩

/-! ### Claim C8 (corrected) -/

/-- C8 counterexample: a timed-out (null-resolving) lookup for pid 7, whose
cache entry is stale at "/a", does not fall back to "/a": `getWorkingDir`
returns null and overwrites the cache entry with null. -/
theorem C8_counterexample :
    (getWorkingDir 31000 7 (.ok none) c8State).1 = none ∧
    cacheGet (getWorkingDir 31000 7 (.ok none) c8State).2.1 7 =
      some { dir := none, timestamp := 31000 } ∧
    ¬ ((getWorkingDir 31000 7 (.ok none) c8State).1 = some "/a") := by
  refine ⟨by decide, by decide, by decide⟩

/-- C8 (amended): a *thrown* resolution leaves the cache untouched and the
caller falls back to the cached value; a resolution that merely yields null
(the failed or timed-out platform lookups) returns null — and a null result
is never merged into the session record, whose `workingDir` keeps its
previous value. -/
theorem C8_failure_fallback (now pid : Nat) (st : ResolverState) (s : Store) :
    ((getWorkingDirFinish now pid (.error ()) st).2.cache = st.cache ∧
     (getWorkingDirFinish now pid (.error ()) st).1 =
       dirOrNull (cacheGet st pid)) ∧
    (getWorkingDirFinish now pid (.ok none) st).1 = none ∧
    mergeResolvedDir pid none s = (s, []) := by
  exact ⟨⟨rfl, rfl⟩, rfl, rfl⟩

/-! ### Claim C9 -/

theorem startedCount_le_one (now pid : Nat) (st : ResolverState) :
    startedCount (getWorkingDirStart now pid st).1 ≤ 1 := by
  unfold getWorkingDirStart
  split
  · split
    · exact Nat.zero_le 1
    · split
      · exact Nat.zero_le 1
      · exact Nat.le_refl 1
  · split
    · exact Nat.zero_le 1
    · exact Nat.le_refl 1

theorem start_started_state {now pid : Nat} {st : ResolverState}
    (h : (getWorkingDirStart now pid st).1 = .started) :
    (getWorkingDirStart now pid st).2 =
      { st with resolving := pid :: st.resolving } := by
  unfold getWorkingDirStart at h ⊢
  cases hc : cacheGet st pid with
  | some c =>
    simp only [hc] at h ⊢
    by_cases hf : now - c.timestamp < CACHE_TTL
    · simp [hf] at h
    · by_cases hin : pid ∈ st.resolving
      · simp [hf, hin] at h
      · simp [hf, hin]
  | none =>
    simp only [hc] at h ⊢
    by_cases hin : pid ∈ st.resolving
    · simp [hin] at h
    · simp [hin]

theorem start_done_of_inflight {pid : Nat} {st : ResolverState}
    (now : Nat) (h : st.resolving.contains pid = true) :
    startedCount (getWorkingDirStart now pid st).1 = 0 := by
  have hmem : pid ∈ st.resolving := by simpa using h
  unfold getWorkingDirStart
  cases hc : cacheGet st pid with
  | some c =>
    by_cases hf : now - c.timestamp < CACHE_TTL
    · simp [hc, hf, startedCount]
    · simp [hc, hf, hmem, startedCount]
  | none => simp [hc, hmem, startedCount]

/-- C9: a `getWorkingDir` call that arrives while a resolution for the same
pid is in flight (and the cache entry is absent or stale) returns the last
cached value without touching the state or initiating a lookup; consequently
two overlapping calls initiate at most one underlying lookup. -/
theorem C9_at_most_one_lookup (now₁ now₂ pid : Nat) (st : ResolverState) :
    (st.resolving.contains pid = true →
      (∀ c, cacheGet st pid = some c → ¬ now₁ - c.timestamp < CACHE_TTL) →
      getWorkingDirStart now₁ pid st =
        (.done (dirOrNull (cacheGet st pid)), st)) ∧
    startedCount (getWorkingDirStart now₁ pid st).1 +
      startedCount (getWorkingDirStart now₂ pid
        (getWorkingDirStart now₁ pid st).2).1 ≤ 1 := by
  constructor
  · intro hin hstale
    have hmem : pid ∈ st.resolving := by simpa using hin
    unfold getWorkingDirStart
    cases hc : cacheGet st pid with
    | none => simp [hc, hmem]
    | some c => simp [hc, hmem, hstale c hc]
  · cases hr : (getWorkingDirStart now₁ pid st).1 with
    | done d =>
      simp only [startedCount, Nat.zero_add]
      exact startedCount_le_one now₂ pid _
    | started =>
      rw [start_started_state hr,
          start_done_of_inflight now₂ (by simp)]
      decide

/-- Witness for C9: with pid 7 in flight and a stale cache entry, the second
call returns the cached "/a" and the two calls start no second lookup. -/
theorem C9_at_most_one_lookup_witness :
    (({ cache := [(7, { dir := some "/a", timestamp := 0 })],
        resolving := [7] } : ResolverState).resolving.contains 7 = true) ∧
    getWorkingDirStart 40000 7
        { cache := [(7, { dir := some "/a", timestamp := 0 })],
          resolving := [7] } =
      (.done (some "/a"),
       { cache := [(7, { dir := some "/a", timestamp := 0 })],
         resolving := [7] }) := by
  constructor
  · decide
  · have h := (C9_at_most_one_lookup 40000 0 7
      { cache := [(7, { dir := some "/a", timestamp := 0 })],
        resolving := [7] }).1 (by decide) (by decide)
    rw [h]
    decide

/-! ### Claim C4 (corrected) -/

/-- C4 counterexample: `updateStatusBySessionId` is one of the listed
mutating calls, yet a call whose first matching record already carries the
target status emits no state-changed notification at all. -/
theorem C4_counterexample :
    snapshotEvents (updateStatusBySessionId 1 "abc" .idle demoStore).2 = [] ∧
    ¬ (snapshotEvents (updateStatusBySessionId 1 "abc" .idle demoStore).2 =
        [.stateChanged (getAllProcesses
          (updateStatusBySessionId 1 "abc" .idle demoStore).1)]) := by
  refine ⟨by decide, by decide⟩

theorem snapshotEvents_pair (p : ClaudeProcess) (l : List ClaudeProcess) :
    snapshotEvents [.processUpdated p, .stateChanged l] = [.stateChanged l] :=
  rfl

/-- C4 (amended): `upsertProcess` and `associateSession` always emit exactly
one state-changed notification; `updateStatusBySessionId`, `updateMetrics`
and `removeProcess` either take their silent no-op path (store unchanged,
nothing emitted) or emit exactly one; and every emitted state-changed
notification carries the full current record list (what `getAllProcesses`
returns), never a diff. -/
theorem C4_one_snapshot_per_mutation (now pid : Nat) (u : PartialProcess)
    (sid : String) (st : ProcessStatus) (tp : Option String) (m : Metrics)
    (s : Store) :
    emitsOneSnapshot (upsertProcess now pid u s) ∧
    emitsOneSnapshot (associateSession now pid sid tp s) ∧
    ((updateStatusBySessionId now sid st s).1 = s ∧
        (updateStatusBySessionId now sid st s).2 = [] ∨
      emitsOneSnapshot (updateStatusBySessionId now sid st s)) ∧
    ((updateMetrics pid m s).1 = s ∧ (updateMetrics pid m s).2 = [] ∨
      emitsOneSnapshot (updateMetrics pid m s)) ∧
    ((mapGet s pid = none → removeProcess pid s = (s, [])) ∧
     (∀ p, mapGet s pid = some p → emitsOneSnapshot (removeProcess pid s))) := by
  refine ⟨?_, ?_, ?_, ?_, ?_, ?_⟩
  · exact snapshotEvents_pair _ _
  · unfold associateSession
    cases h : mapGet s pid with
    | some p => exact snapshotEvents_pair _ _
    | none => exact snapshotEvents_pair _ _
  · unfold updateStatusBySessionId
    cases hf : updateFirstBySessionId now sid st s with
    | mk s' r =>
      cases r with
      | none =>
        left
        have := updateFirst_none_fst now st (by rw [hf])
        rw [hf] at this
        exact ⟨this, rfl⟩
      | some p =>
        right
        exact snapshotEvents_pair _ _
  · unfold updateMetrics
    cases h : mapGet s pid with
    | none => exact Or.inl ⟨rfl, rfl⟩
    | some p =>
      simp only
      split
      · right
        exact rfl
      · exact Or.inl ⟨rfl, rfl⟩
  · intro h
    exact removeProcess_unknown h
  · intro p h
    rw [removeProcess_known h]
    rfl

/-- Witness for C4 at concrete calls. -/
theorem C4_one_snapshot_per_mutation_witness :
    emitsOneSnapshot (upsertProcess 1 6 {} demoStore) ∧
    mapGet demoStore 5 = some demoRec ∧
    emitsOneSnapshot (removeProcess 5 demoStore) := by
  refine ⟨?_, by decide, ?_⟩
  · exact (C4_one_snapshot_per_mutation 1 6 {} "x" .idle none {} demoStore).1
  · exact (C4_one_snapshot_per_mutation 1 5 {} "x" .idle none
      {} demoStore).2.2.2.2.2 demoRec (by decide)

/-! ### Claim C3 (corrected): idempotence machinery -/

theorem getD_getD {α : Type} (o : Option α) (x : α) :
    o.getD (o.getD x) = o.getD x := by
  cases o <;> rfl

theorem claudeProcess_eq (a b : ClaudeProcess)
    (h₁ : a.pid = b.pid) (h₂ : a.sessionId = b.sessionId)
    (h₃ : a.displayName = b.displayName) (h₄ : a.status = b.status)
    (h₅ : a.cpuUsage = b.cpuUsage) (h₆ : a.memoryUsage = b.memoryUsage)
    (h₇ : a.startTime = b.startTime) (h₈ : a.lastActiveTime = b.lastActiveTime)
    (h₉ : a.runningTime = b.runningTime) (h₁₀ : a.firstSeenAt = b.firstSeenAt)
    (h₁₁ : a.workingDir = b.workingDir)
    (h₁₂ : a.transcriptPath = b.transcriptPath) : a = b := by
  cases a
  cases b
  simp_all

theorem mergeInto_displayName (p : ClaudeProcess) (u : PartialProcess) :
    (mergeInto p u).displayName =
      (match u.displayName with
        | some d => some d
        | none => p.displayName) := rfl

theorem mergeInto_workingDir (p : ClaudeProcess) (u : PartialProcess) :
    (mergeInto p u).workingDir =
      (match u.workingDir with
        | some d => some d
        | none => p.workingDir) := rfl

theorem mergeInto_transcriptPath (p : ClaudeProcess) (u : PartialProcess) :
    (mergeInto p u).transcriptPath =
      (match u.transcriptPath with
        | some t => some t
        | none => p.transcriptPath) := rfl

theorem ensureDisplayName_startTime (k : Nat) (p : ClaudeProcess) :
    (ensureDisplayName k p).startTime = p.startTime := by
  unfold ensureDisplayName
  dsimp only
  split <;> rfl

theorem ensureDisplayName_runningTime (k : Nat) (p : ClaudeProcess) :
    (ensureDisplayName k p).runningTime = p.runningTime := by
  unfold ensureDisplayName
  dsimp only
  split <;> rfl

theorem ensureDisplayName_firstSeenAt (k : Nat) (p : ClaudeProcess) :
    (ensureDisplayName k p).firstSeenAt = p.firstSeenAt := by
  unfold ensureDisplayName
  dsimp only
  split <;> rfl

theorem ensureDisplayName_workingDir (k : Nat) (p : ClaudeProcess) :
    (ensureDisplayName k p).workingDir = p.workingDir := by
  unfold ensureDisplayName
  dsimp only
  split <;> rfl

theorem ensureDisplayName_transcriptPath (k : Nat) (p : ClaudeProcess) :
    (ensureDisplayName k p).transcriptPath = p.transcriptPath := by
  unfold ensureDisplayName
  dsimp only
  split <;> rfl

theorem dispName_ne_empty (k : Nat) (sid : String) : dispName k sid ≠ "" := by
  unfold dispName
  split <;> intro h
  · have hl := congrArg String.length h
    rw [String.length_append] at hl
    have h8 : ("Session " : String).length = 8 := by decide
    have h0 : ("" : String).length = 0 := by decide
    rw [h8, h0] at hl
    omega
  · have hl := congrArg String.length h
    rw [String.length_append] at hl
    have h4 : ("PID " : String).length = 4 := by decide
    have h0 : ("" : String).length = 0 := by decide
    rw [h4, h0] at hl
    omega

theorem ensureDisplayName_displayName (k : Nat) (p : ClaudeProcess) :
    (ensureDisplayName k p).displayName = some (
      match p.displayName with
      | some d => if d = "" then dispName k p.sessionId else d
      | none => dispName k p.sessionId) := by
  unfold ensureDisplayName dispName
  cases hd : p.displayName with
  | none => simp
  | some d =>
    by_cases hde : d = ""
    · simp [hd, hde]
    · simp [hd, hde]

theorem upsertExistingRec_cpuUsage (now k : Nat) (u : PartialProcess)
    (q : ClaudeProcess) :
    (upsertExistingRec now k u q).cpuUsage = u.cpuUsage.getD q.cpuUsage := by
  unfold upsertExistingRec
  rw [ensureDisplayName_cpuUsage]
  rfl

theorem upsertExistingRec_memoryUsage (now k : Nat) (u : PartialProcess)
    (q : ClaudeProcess) :
    (upsertExistingRec now k u q).memoryUsage =
      u.memoryUsage.getD q.memoryUsage := by
  unfold upsertExistingRec
  rw [ensureDisplayName_memoryUsage]
  rfl

theorem upsertExistingRec_startTime (now k : Nat) (u : PartialProcess)
    (q : ClaudeProcess) :
    (upsertExistingRec now k u q).startTime = u.startTime.getD q.startTime := by
  unfold upsertExistingRec
  rw [ensureDisplayName_startTime]
  rfl

theorem upsertExistingRec_runningTime (now k : Nat) (u : PartialProcess)
    (q : ClaudeProcess) :
    (upsertExistingRec now k u q).runningTime =
      u.runningTime.getD q.runningTime := by
  unfold upsertExistingRec
  rw [ensureDisplayName_runningTime]
  rfl

theorem upsertExistingRec_firstSeenAt (now k : Nat) (u : PartialProcess)
    (q : ClaudeProcess) :
    (upsertExistingRec now k u q).firstSeenAt =
      u.firstSeenAt.getD q.firstSeenAt := by
  unfold upsertExistingRec
  rw [ensureDisplayName_firstSeenAt]
  rfl

theorem upsertExistingRec_workingDir (now k : Nat) (u : PartialProcess)
    (q : ClaudeProcess) :
    (upsertExistingRec now k u q).workingDir =
      (match u.workingDir with
        | some d => some d
        | none => q.workingDir) := by
  unfold upsertExistingRec
  rw [ensureDisplayName_workingDir]
  rfl

theorem upsertExistingRec_transcriptPath (now k : Nat) (u : PartialProcess)
    (q : ClaudeProcess) :
    (upsertExistingRec now k u q).transcriptPath =
      (match u.transcriptPath with
        | some t => some t
        | none => q.transcriptPath) := by
  unfold upsertExistingRec
  rw [ensureDisplayName_transcriptPath]
  rfl

theorem upsertNewRec_cpuUsage (now k : Nat) (u : PartialProcess) :
    (upsertNewRec now k u).cpuUsage = u.cpuUsage.getD 0 := by
  unfold upsertNewRec
  rw [ensureDisplayName_cpuUsage, mergeInto_cpuUsage]
  rfl

theorem upsertNewRec_memoryUsage (now k : Nat) (u : PartialProcess) :
    (upsertNewRec now k u).memoryUsage = u.memoryUsage.getD 0 := by
  unfold upsertNewRec
  rw [ensureDisplayName_memoryUsage, mergeInto_memoryUsage]
  rfl

/-- Applying the same partial a second time reproduces the stored record,
apart from `lastActiveTime`. -/
theorem upsert_stable (k n₂ m : Nat) (u : PartialProcess) (Z : ClaudeProcess) :
    { upsertExistingRec n₂ k u
        (ensureDisplayName k { mergeInto Z u with lastActiveTime := m }) with
      lastActiveTime := 0 } =
    { ensureDisplayName k { mergeInto Z u with lastActiveTime := m } with
      lastActiveTime := 0 } := by
  apply claudeProcess_eq
  case h₁ =>
    simp [upsertExistingRec_pid, ensureDisplayName_pid, mergeInto_pid,
      getD_getD]
  case h₂ =>
    simp [upsertExistingRec_sessionId, ensureDisplayName_sessionId,
      mergeInto_sessionId, getD_getD]
  case h₄ =>
    simp [upsertExistingRec_status, ensureDisplayName_status, mergeInto_status,
      getD_getD]
  case h₅ =>
    simp [upsertExistingRec_cpuUsage, ensureDisplayName_cpuUsage,
      mergeInto_cpuUsage, getD_getD]
  case h₆ =>
    simp [upsertExistingRec_memoryUsage, ensureDisplayName_memoryUsage,
      mergeInto_memoryUsage, getD_getD]
  case h₇ =>
    simp [upsertExistingRec_startTime, ensureDisplayName_startTime,
      mergeInto_startTime, getD_getD]
  case h₈ => rfl
  case h₉ =>
    simp [upsertExistingRec_runningTime, ensureDisplayName_runningTime,
      mergeInto_runningTime, getD_getD]
  case h₁₀ =>
    simp [upsertExistingRec_firstSeenAt, ensureDisplayName_firstSeenAt,
      mergeInto_firstSeenAt, getD_getD]
  case h₁₁ =>
    cases hw : u.workingDir <;>
      simp [upsertExistingRec_workingDir, ensureDisplayName_workingDir,
        mergeInto_workingDir, hw]
  case h₁₂ =>
    cases ht : u.transcriptPath <;>
      simp [upsertExistingRec_transcriptPath, ensureDisplayName_transcriptPath,
        mergeInto_transcriptPath, ht]
  case h₃ =>
    have hD := dispName_ne_empty k ((mergeInto Z u).sessionId)
    cases hu : u.displayName with
    | some d =>
      by_cases hde : d = ""
      · simp [upsertExistingRec, ensureDisplayName_displayName,
          mergeInto_displayName, mergeInto_sessionId, ensureDisplayName_sessionId,
          hu, hde, getD_getD]
      · simp [upsertExistingRec, ensureDisplayName_displayName,
          mergeInto_displayName, hu, hde]
    | none =>
      cases hzd : Z.displayName with
      | none =>
        simp [upsertExistingRec, ensureDisplayName_displayName,
          mergeInto_displayName, hu, hzd, hD]
      | some d =>
        by_cases hde : d = ""
        · simp [upsertExistingRec, ensureDisplayName_displayName,
            mergeInto_displayName, hu, hzd, hde, hD]
        · simp [upsertExistingRec, ensureDisplayName_displayName,
            mergeInto_displayName, hu, hzd, hde]

theorem upsertProcess_get_self (now pid : Nat) (u : PartialProcess)
    (s : Store) :
    mapGet (upsertProcess now pid u s).1 pid = some (
      match mapGet s pid with
      | some q => upsertExistingRec now pid u q
      | none => upsertNewRec now pid u) := by
  unfold upsertProcess
  dsimp only
  exact mapGet_mapSet_self s pid _

/-- C3 counterexample: when the partial itself carries a status, `upsert` on
an unknown pid creates the record with that status, not Idle — here a
creation with status Running. -/
theorem C3_counterexample :
    (mapGet (upsertProcess 10 5 { status := some .running } []).1 5).map
        (fun p => p.status) = some .running ∧
    ¬ ((mapGet (upsertProcess 10 5 { status := some .running } []).1 5).map
        (fun p => p.status) = some .idle) := by
  refine ⟨by decide, by decide⟩

/-- C3 (amended): `upsert` is idempotent — applying the identical partial
twice yields the same final record fields as applying it once, aside from
`lastActiveTime` — and when no record exists for the pid it creates one whose
status is Idle and whose cpu/memory metrics are zero except where the partial
itself supplies those fields. -/
theorem C3_upsert_idempotent (now₁ now₂ pid : Nat) (u : PartialProcess)
    (s : Store) :
    (∀ p₁ p₂,
      mapGet (upsertProcess now₁ pid u s).1 pid = some p₁ →
      mapGet (upsertProcess now₂ pid u
        (upsertProcess now₁ pid u s).1).1 pid = some p₂ →
      { p₂ with lastActiveTime := 0 } = { p₁ with lastActiveTime := 0 }) ∧
    (mapGet s pid = none →
      ∀ p₁, mapGet (upsertProcess now₁ pid u s).1 pid = some p₁ →
        (u.status = none → p₁.status = .idle) ∧
        (u.cpuUsage = none → p₁.cpuUsage = 0) ∧
        (u.memoryUsage = none → p₁.memoryUsage = 0)) := by
  constructor
  · intro p₁ p₂ h₁ h₂
    have hg₁ := upsertProcess_get_self now₁ pid u s
    rw [h₁] at hg₁
    have hg₂ := upsertProcess_get_self now₂ pid u (upsertProcess now₁ pid u s).1
    rw [h₂, h₁] at hg₂
    have hp₂ : p₂ = upsertExistingRec now₂ pid u p₁ := Option.some.inj hg₂
    cases hs : mapGet s pid with
    | some q =>
      rw [hs] at hg₁
      have hp₁ : p₁ = upsertExistingRec now₁ pid u q := Option.some.inj hg₁
      rw [hp₂, hp₁]
      exact upsert_stable pid now₂ now₁ u q
    | none =>
      rw [hs] at hg₁
      have hp₁ : p₁ = upsertNewRec now₁ pid u := Option.some.inj hg₁
      have hform : upsertNewRec now₁ pid u =
          ensureDisplayName pid
            { mergeInto (upsertBase now₁ pid u) u with
              lastActiveTime :=
                (mergeInto (upsertBase now₁ pid u) u).lastActiveTime } := rfl
      rw [hp₂, hp₁, hform]
      exact upsert_stable pid now₂
        ((mergeInto (upsertBase now₁ pid u) u).lastActiveTime) u
        (upsertBase now₁ pid u)
  · intro hs p₁ h₁
    have hg₁ := upsertProcess_get_self now₁ pid u s
    rw [h₁, hs] at hg₁
    have hp₁ : p₁ = upsertNewRec now₁ pid u := Option.some.inj hg₁
    subst hp₁
    refine ⟨?_, ?_, ?_⟩
    · intro h
      rw [upsertNewRec_status, h]
      rfl
    · intro h
      rw [upsertNewRec_cpuUsage, h]
      rfl
    · intro h
      rw [upsertNewRec_memoryUsage, h]
      rfl

/-- Witness for C3 at a concrete partial and store. -/
theorem C3_upsert_idempotent_witness :
    mapGet (upsertProcess 1 5 { cpuUsage := some 3 } []).1 5 =
      some (upsertNewRec 1 5 { cpuUsage := some 3 }) ∧
    mapGet (upsertProcess 2 5 { cpuUsage := some 3 }
        (upsertProcess 1 5 { cpuUsage := some 3 } []).1).1 5 =
      some (upsertExistingRec 2 5 { cpuUsage := some 3 }
        (upsertNewRec 1 5 { cpuUsage := some 3 })) ∧
    ({ upsertExistingRec 2 5 { cpuUsage := some 3 }
        (upsertNewRec 1 5 { cpuUsage := some 3 }) with lastActiveTime := 0 } =
      { upsertNewRec 1 5 { cpuUsage := some 3 } with lastActiveTime := 0 }) ∧
    (upsertNewRec 1 5 { cpuUsage := some 3 }).status = .idle := by
  refine ⟨by decide, by decide, ?_, ?_⟩
  · exact (C3_upsert_idempotent 1 2 5 { cpuUsage := some 3 } []).1
      (upsertNewRec 1 5 { cpuUsage := some 3 })
      (upsertExistingRec 2 5 { cpuUsage := some 3 }
        (upsertNewRec 1 5 { cpuUsage := some 3 }))
      (by decide) (by decide)
  · exact (((C3_upsert_idempotent 1 2 5 { cpuUsage := some 3 } []).2
      (by decide) (upsertNewRec 1 5 { cpuUsage := some 3 }) (by decide)).1 rfl)

/-! ### Claim C1 (corrected): last-applied-event machinery -/

theorem hookPartial_sessionId (sid : String) (t : HookEventType) :
    (hookPartial sid t).sessionId = some sid := rfl

theorem hookPartial_status (sid : String) (t : HookEventType) :
    (hookPartial sid t).status = some (statusForHook t) := rfl

theorem hookPartial_pid (sid : String) (t : HookEventType) :
    (hookPartial sid t).pid = none := rfl

theorem find_sid_of_unique {s : Store} {sid : String} {k : Nat}
    {p : ClaudeProcess} (hmem : (k, p) ∈ s) (hsid : p.sessionId = sid)
    (huni : ∀ e ∈ s, e.2.sessionId = sid → e = (k, p)) :
    s.find? (fun e => e.2.sessionId = sid) = some (k, p) := by
  induction s with
  | nil => simp at hmem
  | cons e rest ih =>
    by_cases he : e.2.sessionId = sid
    · rw [List.find?_cons_of_pos _ (by simpa using he)]
      rw [huni e (by simp) he]
    · rw [List.find?_cons_of_neg _ (by simpa using he)]
      apply ih
      · rcases List.mem_cons.mp hmem with hh | hh
        · exact absurd hsid (by rw [← hh] at he; simpa using he)
        · exact hh
      · exact fun e' he' hh => huni e' (List.mem_cons_of_mem _ he') hh

theorem getBySid_of_unique {s : Store} {sid : String} {k : Nat}
    {p : ClaudeProcess} (hmem : (k, p) ∈ s) (hsid : p.sessionId = sid)
    (huni : ∀ e ∈ s, e.2.sessionId = sid → e = (k, p)) :
    getProcessBySessionId s sid = some p := by
  unfold getProcessBySessionId
  rw [find_sid_of_unique hmem hsid huni]
  rfl

theorem getBySid_none {s : Store} {sid : String}
    (h : ∀ e ∈ s, e.2.sessionId ≠ sid) :
    getProcessBySessionId s sid = none := by
  unfold getProcessBySessionId
  rw [List.find?_eq_none.mpr (fun e he => by simpa using h e he)]
  rfl

theorem sessionInv_none_intro {sid : String} {s : Store} (hwf : WFStore s)
    (h : ∀ e ∈ s, e.2.sessionId ≠ sid) : sessionInv sid s none :=
  ⟨hwf, h⟩

theorem sessionInv_none_dest {sid : String} {s : Store}
    (h : sessionInv sid s none) :
    WFStore s ∧ ∀ e ∈ s, e.2.sessionId ≠ sid := h

theorem sessionInv_some_intro {sid : String} {s : Store} {st : ProcessStatus}
    (hwf : WFStore s) (k : Nat) (p : ClaudeProcess)
    (h1 : mapGet s k = some p) (h2 : p.pid = k) (h3 : p.sessionId = sid)
    (h4 : p.status = st) (h5 : ∀ e ∈ s, e.2.sessionId = sid → e = (k, p)) :
    sessionInv sid s (some st) :=
  ⟨hwf, k, p, h1, h2, h3, h4, h5⟩

theorem sessionInv_some_dest {sid : String} {s : Store} {st : ProcessStatus}
    (h : sessionInv sid s (some st)) :
    WFStore s ∧ ∃ k p, mapGet s k = some p ∧ p.pid = k ∧
      p.sessionId = sid ∧ p.status = st ∧
      ∀ e ∈ s, e.2.sessionId = sid → e = (k, p) := h

theorem hook_step {sid : String} {s : Store} {acc : Option ProcessStatus}
    (now : Nat) (t : HookEventType) (hnow : 0 < now)
    (hinv : sessionInv sid s acc) :
    sessionInv sid (handleHookEvent now { type := t, sessionId := sid } s).1
      (some (statusForHook t)) := by
  cases acc with
  | some st₀ =>
    obtain ⟨hwf, k, p, hget, hpid, hsid, _hstat, huni⟩ :=
      sessionInv_some_dest hinv
    have hmem := mem_of_mapGet_some hget
    have hkpos : 0 < k := (hwf.2 _ hmem).2
    have hfind := getBySid_of_unique hmem hsid huni
    rw [handleHookEvent_noPid_found now t hfind (by rw [hpid]; exact hkpos)]
    rw [hpid, upsertProcess_existing now _ hget]
    dsimp only
    refine sessionInv_some_intro ?_ k _ (mapGet_mapSet_self s k _) ?_ ?_ ?_ ?_
    · exact WFStore_mapSet_existing _ hwf hget
        (by simp [upsertExistingRec_pid, hookPartial_pid, hpid])
    · simp [upsertExistingRec_pid, hookPartial_pid, hpid]
    · simp [upsertExistingRec_sessionId, hookPartial_sessionId]
    · simp [upsertExistingRec_status, hookPartial_status]
    · intro e he hesid
      rcases mem_mapSet he with he | ⟨hein, hekey⟩
      · rw [he]
      · exact absurd (congrArg Prod.fst (huni e hein hesid))
          (by simpa using hekey)
  | none =>
    obtain ⟨hwf, hnone⟩ := sessionInv_none_dest hinv
    have hfind := getBySid_none hnone
    cases hpr : s.find? (fun q => jsStartsWith q.2.sessionId "pid-") with
    | some q =>
      have hqmem := List.mem_of_find?_eq_some hpr
      have hq := hwf.2 q hqmem
      have hget : mapGet s q.1 = some q.2 := mapGet_of_mem hwf.1 hqmem
      rw [handleHookEvent_noPid_bind now t hfind hpr (by rw [hq.1]; exact hq.2)]
      rw [hq.1, upsertProcess_existing now _ hget]
      dsimp only
      refine sessionInv_some_intro ?_ q.1 _ (mapGet_mapSet_self s q.1 _)
        ?_ ?_ ?_ ?_
      · exact WFStore_mapSet_existing _ hwf hget
          (by simp [upsertExistingRec_pid, hookPartial_pid, hq.1])
      · simp [upsertExistingRec_pid, hookPartial_pid, hq.1]
      · simp [upsertExistingRec_sessionId, hookPartial_sessionId]
      · simp [upsertExistingRec_status, hookPartial_status]
      · intro e he hesid
        rcases mem_mapSet he with he | ⟨hein, _⟩
        · rw [he]
        · exact absurd hesid (hnone e hein)
    | none =>
      rw [handleHookEvent_noPid_placeholder now t hfind hpr]
      cases hg : mapGet s now with
      | some ex =>
        have hexpid : ex.pid = now := (hwf.2 _ (mem_of_mapGet_some hg)).1
        rw [upsertProcess_existing now _ hg]
        dsimp only
        refine sessionInv_some_intro ?_ now _ (mapGet_mapSet_self s now _)
          ?_ ?_ ?_ ?_
        · exact WFStore_mapSet_existing _ hwf hg
            (by simp [upsertExistingRec_pid, hookPartial_pid, hexpid])
        · simp [upsertExistingRec_pid, hookPartial_pid, hexpid]
        · simp [upsertExistingRec_sessionId, hookPartial_sessionId]
        · simp [upsertExistingRec_status, hookPartial_status]
        · intro e he hesid
          rcases mem_mapSet he with he | ⟨hein, _⟩
          · rw [he]
          · exact absurd hesid (hnone e hein)
      | none =>
        rw [upsertProcess_new now _ hg]
        dsimp only
        refine sessionInv_some_intro ?_ now
          (upsertNewRec now now (hookPartial sid t)) ?_ ?_ ?_ ?_ ?_
        · exact WFStore_append_new _ hwf hg
            (by simp [upsertNewRec_pid, hookPartial_pid]) hnow
        · rw [mapGet_append_left hg]
          exact mapGet_cons_self now _ []
        · simp [upsertNewRec_pid, hookPartial_pid]
        · simp [upsertNewRec_sessionId, hookPartial_sessionId]
        · simp [upsertNewRec_status, hookPartial_status]
        · intro e he hesid
          rcases List.mem_append.mp he with hein | hein
          · exact absurd hesid (hnone e hein)
          · simpa using hein

theorem interrupt_step {sid : String} {s : Store} {acc : Option ProcessStatus}
    (now : Nat) (hinv : sessionInv sid s acc) :
    sessionInv sid (handleLogInterrupt now sid s).1
      (acc.map fun _ => ProcessStatus.idle) := by
  cases acc with
  | none =>
    obtain ⟨hwf, hnone⟩ := sessionInv_none_dest hinv
    unfold handleLogInterrupt
    rw [updateStatus_of_no_match now _ hnone]
    exact sessionInv_none_intro hwf hnone
  | some st₀ =>
    obtain ⟨hwf, k, p, hget, hpid, hsid, _hstat, huni⟩ :=
      sessionInv_some_dest hinv
    have hmem := mem_of_mapGet_some hget
    unfold handleLogInterrupt
    by_cases hidle : p.status = ProcessStatus.idle
    · rw [updateStatus_of_first_same now _
        (find_sid_of_unique hmem hsid huni) hidle]
      exact sessionInv_some_intro hwf k p hget hpid hsid hidle huni
    · rw [updateStatus_unique_changed now _ hwf.1 hmem hsid huni hidle]
      dsimp only
      refine sessionInv_some_intro ?_ k _ (mapGet_mapSet_self s k _)
        hpid hsid rfl ?_
      · exact WFStore_mapSet_existing _ hwf hget hpid
      · intro e he hesid
        rcases mem_mapSet he with he | ⟨hein, hekey⟩
        · rw [he]
        · exact absurd (congrArg Prod.fst (huni e hein hesid))
            (by simpa using hekey)

theorem sessionInv_fold (sid : String) (evs : List (Nat × SessionEvent)) :
    ∀ (s : Store) (acc : Option ProcessStatus),
      sessionInv sid s acc → (∀ e ∈ evs, 0 < e.1) →
      sessionInv sid (evs.foldl (applySessionEvent sid) s)
        (evs.foldl (fun acc e =>
          match e.2 with
          | .hook t => some (statusForHook t)
          | .interrupt => acc.map (fun _ => ProcessStatus.idle)) acc) := by
  induction evs with
  | nil =>
    intro s acc hinv _
    exact hinv
  | cons e rest ih =>
    intro s acc hinv hpos
    rw [List.foldl_cons, List.foldl_cons]
    apply ih
    · cases he : e.2 with
      | hook t =>
        have h1 : applySessionEvent sid s e =
            (handleHookEvent e.1 { type := t, sessionId := sid } s).1 := by
          unfold applySessionEvent
          rw [he]
        rw [h1]
        exact hook_step e.1 t (hpos e (by simp)) hinv
      | interrupt =>
        have h1 : applySessionEvent sid s e =
            (handleLogInterrupt e.1 sid s).1 := by
          unfold applySessionEvent
          rw [he]
        rw [h1]
        exact interrupt_step e.1 hinv
    · exact fun e' he' => hpos e' (List.mem_cons_of_mem _ he')

/-- C1 counterexample: for sessionId "abc", a pid-less `session_start`
followed by a `request_start` carrying pid 100 leaves the session's status
(read through `getProcessBySessionId`, which returns the stale placeholder
record) at Idle although the last-applied hook event implies Running and no
interrupt was applied. -/
theorem C1_counterexample :
    (getProcessBySessionId
        (handleHookEvent 1700000000001
          { type := .request_start, sessionId := "abc", pid := some 100 }
          (handleHookEvent 1700000000000
            { type := .session_start, sessionId := "abc" } []).1).1
        "abc").map (fun p => p.status) = some .idle ∧
    ¬ ((getProcessBySessionId
        (handleHookEvent 1700000000001
          { type := .request_start, sessionId := "abc", pid := some 100 }
          (handleHookEvent 1700000000000
            { type := .session_start, sessionId := "abc" } []).1).1
        "abc").map (fun p => p.status) = some .running) := by
  refine ⟨by decide, by decide⟩

/-- C1 (amended): for every sequence of *pid-less* hook events and log
interrupts for a fixed sessionId, applied from a well-formed store holding no
record for that sessionId, the resulting status of the session equals the
status implied by the last-applied hook event — `session_start` and
`request_stop` give Idle, `request_start` gives Running — unless a log
interrupt was applied after it, in which case the status is Idle.  (Events
that introduce a second, different pid for the sessionId can duplicate the
record and are excluded; see the counterexample.) -/
theorem C1_last_applied_wins (sid : String) (s₀ : Store)
    (evs : List (Nat × SessionEvent)) (st : ProcessStatus)
    (hwf : WFStore s₀) (hfresh : ∀ e ∈ s₀, e.2.sessionId ≠ sid)
    (hpos : ∀ e ∈ evs, 0 < e.1)
    (hexp : expectedStatus evs = some st) :
    (getProcessBySessionId (applySession sid evs s₀) sid).map
      (fun p => p.status) = some st := by
  have hinv := sessionInv_fold sid evs s₀ none
    (sessionInv_none_intro hwf hfresh) hpos
  unfold expectedStatus at hexp
  rw [hexp] at hinv
  obtain ⟨_hwf', k, p, hget, _hpid, hsid, hstat, huni⟩ :=
    sessionInv_some_dest hinv
  unfold applySession
  rw [getBySid_of_unique (mem_of_mapGet_some hget) hsid huni]
  simp [hstat]

/-- Witness for C1: a start–run–interrupt–run sequence ends Running. -/
theorem C1_last_applied_wins_witness :
    WFStore ([] : Store) ∧
    expectedStatus [(5, .hook .session_start), (6, .hook .request_start),
      (7, .interrupt), (8, .hook .request_start)] = some .running ∧
    (getProcessBySessionId
      (applySession "abc" [(5, .hook .session_start), (6, .hook .request_start),
        (7, .interrupt), (8, .hook .request_start)] []) "abc").map
      (fun p => p.status) = some .running := by
  refine ⟨⟨by simp, by simp⟩, rfl, ?_⟩
  exact C1_last_applied_wins "abc" [] _ .running ⟨by simp, by simp⟩
    (by simp) (by intro e he; fin_cases he <;> simp) rfl

/-! ### Claim C5 (corrected): uniqueness preservation machinery -/

theorem isPrefixOf_append (l t : List Char) : l.isPrefixOf (l ++ t) = true := by
  induction l with
  | nil => simp [List.isPrefixOf]
  | cons c cs ih => simp [List.isPrefixOf, ih]

theorem jsStartsWith_append (p x : String) : jsStartsWith (p ++ x) p = true := by
  unfold jsStartsWith
  rw [String.data_append]
  exact isPrefixOf_append p.data x.data

theorem updateFirst_keys (now : Nat) (sid : String) (st : ProcessStatus)
    (s : Store) :
    ((updateFirstBySessionId now sid st s).1).map Prod.fst =
      s.map Prod.fst := by
  have h := congrArg (List.map (fun x : Nat × Nat × String => x.1))
    (updateFirst_proj now sid st s)
  simpa [List.map_map, Function.comp] using h

theorem updateFirst_sids (now : Nat) (sid : String) (st : ProcessStatus)
    (s : Store) :
    sids (updateFirstBySessionId now sid st s).1 = sids s := by
  have h := congrArg (List.map (fun x : Nat × Nat × String => x.2.2))
    (updateFirst_proj now sid st s)
  simpa [sids, List.map_map, Function.comp] using h

theorem updateFirst_wf (now : Nat) (sid : String) (st : ProcessStatus)
    (s : Store) (hwf : WFStore s) :
    WFStore (updateFirstBySessionId now sid st s).1 := by
  constructor
  · rw [updateFirst_keys]
    exact hwf.1
  · intro e' he'
    have h := updateFirst_proj now sid st s
    have hmem : (e'.1, e'.2.pid, e'.2.sessionId) ∈
        s.map (fun e => (e.1, e.2.pid, e.2.sessionId)) := by
      rw [← h]
      exact List.mem_map_of_mem _ he'
    obtain ⟨e, hes, heq⟩ := List.mem_map.mp hmem
    have h1 : e.1 = e'.1 := congrArg (fun x : Nat × Nat × String => x.1) heq
    have h2 : e.2.pid = e'.2.pid :=
      congrArg (fun x : Nat × Nat × String => x.2.1) heq
    have hc := hwf.2 e hes
    exact ⟨by rw [← h2, ← h1]; exact hc.1, by rw [← h1]; exact hc.2⟩

theorem interrupt_preserves (now : Nat) (sid : String) (s : Store)
    (hwf : WFStore s) (hru : ResolvedUnique s) :
    WFStore (handleLogInterrupt now sid s).1 ∧
      ResolvedUnique (handleLogInterrupt now sid s).1 := by
  unfold handleLogInterrupt
  rw [updateStatus_fst]
  exact ⟨updateFirst_wf now sid .idle s hwf,
    ResolvedUnique_congr (updateFirst_sids now sid .idle s) hru⟩

theorem getBySid_some_elim {s : Store} {sid : String} {p : ClaudeProcess}
    (h : getProcessBySessionId s sid = some p) :
    ∃ k, (k, p) ∈ s ∧ p.sessionId = sid := by
  unfold getProcessBySessionId at h
  cases hf : s.find? (fun e => e.2.sessionId = sid) with
  | none => rw [hf] at h; simp at h
  | some e₀ =>
    rw [hf] at h
    simp only [Option.map_some', Option.some.injEq] at h
    have hmem := List.mem_of_find?_eq_some hf
    have hpred := List.find?_some hf
    simp only [decide_eq_true_eq] at hpred
    refine ⟨e₀.1, ?_, ?_⟩
    · rw [← h]
      exact hmem
    · rw [← h]
      exact hpred

theorem hook_preserves (now : Nat) (t : HookEventType) (sid : String)
    (s : Store) (hnow : 0 < now) (hwf : WFStore s)
    (hru : ResolvedUnique s) :
    WFStore (handleHookEvent now { type := t, sessionId := sid } s).1 ∧
      ResolvedUnique
        (handleHookEvent now { type := t, sessionId := sid } s).1 := by
  cases hfind : getProcessBySessionId s sid with
  | some p =>
    obtain ⟨k, hmem, hsid⟩ := getBySid_some_elim hfind
    have hc := hwf.2 _ hmem
    have hcp : p.pid = k := hc.1
    have hkpos : 0 < k := hc.2
    have hget : mapGet s k = some p := mapGet_of_mem hwf.1 hmem
    rw [handleHookEvent_noPid_found now t hfind (by rw [hcp]; exact hkpos)]
    rw [hcp, upsertProcess_existing now _ hget]
    dsimp only
    constructor
    · exact WFStore_mapSet_existing _ hwf hget
        (by simp [upsertExistingRec_pid, hookPartial_pid, hcp])
    · apply ResolvedUnique_congr _ hru
      apply sids_mapSet_same _ hwf.1 hget
      simp [upsertExistingRec_sessionId, hookPartial_sessionId, hsid]
  | none =>
    have hfindn : s.find? (fun e => e.2.sessionId = sid) = none := by
      unfold getProcessBySessionId at hfind
      cases hf : s.find? (fun e => e.2.sessionId = sid) with
      | none => rfl
      | some e₀ => rw [hf] at hfind; simp at hfind
    have hnone : ∀ e ∈ s, e.2.sessionId ≠ sid := by
      intro e he
      have hh := List.find?_eq_none.mp hfindn e he
      simpa using hh
    cases hpr : s.find? (fun q => jsStartsWith q.2.sessionId "pid-") with
    | some q =>
      have hqmem := List.mem_of_find?_eq_some hpr
      have hq := hwf.2 q hqmem
      have hget : mapGet s q.1 = some q.2 := mapGet_of_mem hwf.1 hqmem
      rw [handleHookEvent_noPid_bind now t hfind hpr (by rw [hq.1]; exact hq.2)]
      rw [hq.1, upsertProcess_existing now _ hget]
      dsimp only
      obtain ⟨s₁, s₂, hs, h₁, h₂⟩ := exists_decomp_of_mapGet_some hwf.1 hget
      constructor
      · exact WFStore_mapSet_existing _ hwf hget
          (by simp [upsertExistingRec_pid, hookPartial_pid, hq.1])
      · rw [hs, mapSet_decomp s₁ s₂ q.1 q.2 _ h₁ h₂]
        apply ResolvedUnique_replace s₁ s₂ q.1 q.2 _ (hs ▸ hru)
        left
        intro e he hesid
        have hein : e ∈ s := by
          rw [hs]
          rcases List.mem_append.mp he with hh | hh
          · exact List.mem_append.mpr (Or.inl hh)
          · exact List.mem_append.mpr (Or.inr (List.mem_cons_of_mem _ hh))
        have hrs : (upsertExistingRec now q.1 (hookPartial sid t) q.2).sessionId
            = sid := by
          simp [upsertExistingRec_sessionId, hookPartial_sessionId]
        rw [hrs] at hesid
        exact hnone e hein hesid
    | none =>
      rw [handleHookEvent_noPid_placeholder now t hfind hpr]
      cases hg : mapGet s now with
      | some ex =>
        have hexpid : ex.pid = now := (hwf.2 _ (mem_of_mapGet_some hg)).1
        rw [upsertProcess_existing now _ hg]
        dsimp only
        obtain ⟨s₁, s₂, hs, h₁, h₂⟩ := exists_decomp_of_mapGet_some hwf.1 hg
        constructor
        · exact WFStore_mapSet_existing _ hwf hg
            (by simp [upsertExistingRec_pid, hookPartial_pid, hexpid])
        · rw [hs, mapSet_decomp s₁ s₂ now ex _ h₁ h₂]
          apply ResolvedUnique_replace s₁ s₂ now ex _ (hs ▸ hru)
          left
          intro e he hesid
          have hein : e ∈ s := by
            rw [hs]
            rcases List.mem_append.mp he with hh | hh
            · exact List.mem_append.mpr (Or.inl hh)
            · exact List.mem_append.mpr (Or.inr (List.mem_cons_of_mem _ hh))
          have hrs : (upsertExistingRec now now (hookPartial sid t) ex).sessionId
              = sid := by
            simp [upsertExistingRec_sessionId, hookPartial_sessionId]
          rw [hrs] at hesid
          exact hnone e hein hesid
      | none =>
        rw [upsertProcess_new now _ hg]
        dsimp only
        constructor
        · exact WFStore_append_new _ hwf hg
            (by simp [upsertNewRec_pid, hookPartial_pid]) hnow
        · apply ResolvedUnique_append _ _ _ hru
          left
          intro e he hesid
          have hrs : (upsertNewRec now now (hookPartial sid t)).sessionId
              = sid := by
            simp [upsertNewRec_sessionId, hookPartial_sessionId]
          rw [hrs] at hesid
          exact hnone e he hesid

theorem applyScanOne_preserves (now : Nat) (info : ProcessInfo) (s : Store)
    (hpid : 0 < info.pid) (hwf : WFStore s) (hru : ResolvedUnique s) :
    WFStore (applyScanOne now info s).1 ∧
      ResolvedUnique (applyScanOne now info s).1 := by
  unfold applyScanOne
  cases hg : mapGet s info.pid with
  | some p =>
    unfold updateMetrics
    rw [hg]
    dsimp only
    split
    · have hpidf : p.pid = info.pid := (hwf.2 _ (mem_of_mapGet_some hg)).1
      constructor
      · exact WFStore_mapSet_existing _ hwf hg hpidf
      · exact ResolvedUnique_congr (sids_mapSet_same _ hwf.1 hg rfl) hru
    · exact ⟨hwf, hru⟩
  | none =>
    rw [upsertProcess_new now _ hg]
    dsimp only
    constructor
    · exact WFStore_append_new _ hwf hg
        (by simp [upsertNewRec_pid, scanPartial]) hpid
    · apply ResolvedUnique_append _ _ _ hru
      right
      have hsyn : (upsertNewRec now info.pid (scanPartial info)).sessionId =
          "pid-" ++ toString info.pid := by
        simp [upsertNewRec_sessionId, scanPartial, upsertBase]
      rw [hsyn]
      exact jsStartsWith_append "pid-" (toString info.pid)

theorem scan_fold_preserves (now : Nat) :
    ∀ (infos : List ProcessInfo) (acc : Store × List StoreEvent),
      WFStore acc.1 → ResolvedUnique acc.1 → (∀ i ∈ infos, 0 < i.pid) →
      WFStore ((infos.foldl (fun acc info =>
        let r := applyScanOne now info acc.1
        (r.1, acc.2 ++ r.2)) acc).1) ∧
      ResolvedUnique ((infos.foldl (fun acc info =>
        let r := applyScanOne now info acc.1
        (r.1, acc.2 ++ r.2)) acc).1) := by
  intro infos
  induction infos with
  | nil =>
    intro acc hwf hru _
    exact ⟨hwf, hru⟩
  | cons info rest ih =>
    intro acc hwf hru hpids
    rw [List.foldl_cons]
    have h := applyScanOne_preserves now info acc.1 (hpids info (by simp))
      hwf hru
    exact ih _ h.1 h.2 (fun i hi => hpids i (List.mem_cons_of_mem _ hi))

theorem scan_preserves (now : Nat) (infos : List ProcessInfo) (s : Store)
    (hpids : ∀ i ∈ infos, 0 < i.pid) (hwf : WFStore s)
    (hru : ResolvedUnique s) :
    WFStore (scanProcesses now infos s).1 ∧
      ResolvedUnique (scanProcesses now infos s).1 := by
  unfold scanProcesses
  dsimp only
  have hbase := scan_fold_preserves now infos (s, []) hwf hru hpids
  have hsub := foldl_remove_sublist (fun p : ClaudeProcess => p.pid)
    ((getAllProcesses ((infos.foldl (fun acc info =>
      let r := applyScanOne now info acc.1
      (r.1, acc.2 ++ r.2)) (s, [])).1)).filter
      (fun p => !(infos.map (fun i => i.pid)).contains p.pid &&
        p.pid < 1000000))
    (infos.foldl (fun acc info =>
      let r := applyScanOne now info acc.1
      (r.1, acc.2 ++ r.2)) (s, []))
  exact ⟨WFStore_sublist hsub hbase.1, ResolvedUnique_sublist hsub hbase.2⟩

theorem liveness_preserves (alive : Nat → Bool) (s : Store)
    (hwf : WFStore s) (hru : ResolvedUnique s) :
    WFStore (checkDeadProcesses alive s).1 ∧
      ResolvedUnique (checkDeadProcesses alive s).1 := by
  unfold checkDeadProcesses
  dsimp only
  have hsub := foldl_remove_sublist (fun pid : Nat => pid)
    ((s.map Prod.fst).filter (fun pid => !(validPID pid && alive pid)))
    (s, [])
  exact ⟨WFStore_sublist hsub hwf, ResolvedUnique_sublist hsub hru⟩

theorem applyOp_preserves (op : Op) (s : Store) (hop : OpOK op)
    (hwf : WFStore s) (hru : ResolvedUnique s) :
    WFStore (applyOp op s) ∧ ResolvedUnique (applyOp op s) := by
  cases op with
  | hook now t sid => exact hook_preserves now t sid s hop hwf hru
  | scan now infos => exact scan_preserves now infos s hop.2 hwf hru
  | interrupt now sid => exact interrupt_preserves now sid s hwf hru
  | liveness alive => exact liveness_preserves alive s hwf hru

theorem applyOps_preserves :
    ∀ (ops : List Op) (s : Store), WFStore s → ResolvedUnique s →
      (∀ op ∈ ops, OpOK op) →
      WFStore (applyOps ops s) ∧ ResolvedUnique (applyOps ops s)
  | [], _, hwf, hru, _ => ⟨hwf, hru⟩
  | op :: rest, s, hwf, hru, hops => by
    have h := applyOp_preserves op s (hops op (by simp)) hwf hru
    have hr := applyOps_preserves rest (applyOp op s) h.1 h.2
      (fun op' hop' => hops op' (List.mem_cons_of_mem _ hop'))
    simpa [applyOps] using hr

/-- C5 counterexample: a pid-less `session_start` for "abc" followed by a
`request_start` for "abc" carrying pid 100 produces a reachable store in
which two distinct records both carry the resolved sessionId "abc". -/
theorem C5_counterexample :
    ¬ ResolvedUnique
      (handleHookEvent 1700000000001
        { type := .request_start, sessionId := "abc", pid := some 100 }
        (handleHookEvent 1700000000000
          { type := .session_start, sessionId := "abc" } []).1).1 := by
  intro h
  unfold ResolvedUnique at h
  have hs : sids
      (handleHookEvent 1700000000001
        { type := .request_start, sessionId := "abc", pid := some 100 }
        (handleHookEvent 1700000000000
          { type := .session_start, sessionId := "abc" } []).1).1 =
      ["abc", "abc"] := by decide
  rw [hs] at h
  have h1 := (List.pairwise_cons.mp h).1 "abc" (by simp) rfl
  exact absurd h1 (by decide)

/-- C5 (amended): over every sequence of pid-less hook events, scans, log
interrupts and liveness sweeps (with positive timestamps and scanned pids,
as the real system guarantees), a well-formed store in which no two distinct
records share a resolved (non-synthetic) sessionId keeps that property; hook
events that carry a pid different from the one already bound to their
sessionId are excluded (see the counterexample). -/
theorem C5_resolved_unique (ops : List Op) (s₀ : Store)
    (hwf : WFStore s₀) (hru : ResolvedUnique s₀)
    (hops : ∀ op ∈ ops, OpOK op) :
    ResolvedUnique (applyOps ops s₀) :=
  (applyOps_preserves ops s₀ hwf hru hops).2

/-- Witness for C5 at a concrete operation sequence from the empty store. -/
theorem C5_resolved_unique_witness :
    WFStore ([] : Store) ∧
    (∀ op ∈ ([Op.hook 5 .session_start "abc",
        Op.scan 6 [⟨100, 1, 2, "0:01", 0⟩],
        Op.interrupt 7 "abc",
        Op.liveness (fun _ => true)] : List Op), OpOK op) ∧
    ResolvedUnique (applyOps
      [Op.hook 5 .session_start "abc",
       Op.scan 6 [⟨100, 1, 2, "0:01", 0⟩],
       Op.interrupt 7 "abc",
       Op.liveness (fun _ => true)] []) := by
  have hops : ∀ op ∈ ([Op.hook 5 .session_start "abc",
      Op.scan 6 [⟨100, 1, 2, "0:01", 0⟩],
      Op.interrupt 7 "abc",
      Op.liveness (fun _ => true)] : List Op), OpOK op := by
    intro op hop
    simp only [List.mem_cons, List.not_mem_nil, or_false] at hop
    rcases hop with rfl | rfl | rfl | rfl
    · exact Nat.succ_pos 4
    · refine ⟨Nat.succ_pos 5, ?_⟩
      intro i hi
      simp only [List.mem_singleton] at hi
      rw [hi]
      exact Nat.succ_pos 99
    · trivial
    · trivial
  refine ⟨⟨by simp, by simp⟩, hops, ?_⟩
  exact C5_resolved_unique _ [] ⟨by simp, by simp⟩
    (by simp [ResolvedUnique, sids]) hops

end Aitop
